import Mathlib

set_option linter.all false

/- Shallow embedding of src/main.rs (AlexChadwickP/ProgLang): a one-line
   interactive language processor with a Lexer (tokenize) and a Runner
   (stack evaluator).  Machine strings are Lean `String`/`List Char`;
   character classification models the Rust `char` methods on the ASCII
   range that this program works with.  Loops that the Rust code runs
   without a termination guarantee are given explicit fuel: `none` means
   the fuel ran out (with enough fuel, `none` for every fuel means the
   Rust loop diverges). -/

inductive TokenType where
  | Int
  | Float
  | String
  | Keyword
  | Plus
  | Multiply
  deriving DecidableEq, Repr

structure Token where
  token_type : TokenType
  token_value : String
  deriving DecidableEq, Repr

/-- Result of a lexer computation: a value, or the fatal error raised
through Error::throw (carrying name and description). -/
inductive LexRes (α : Type) where
  | ok (a : α)
  | fatal (name description : String)
  deriving DecidableEq, Repr

/-- The line Error::throw prints before exiting: "{name}: {description}". -/
def fatal_print (name description : String) : String :=
  name ++ ": " ++ description

/-- Models char::is_numeric for the characters this program handles
(ASCII decimal digits). -/
def is_numeric (c : Char) : Bool := c.isDigit

/-- Models char::is_whitespace on the ASCII range. -/
def is_whitespace (c : Char) : Bool :=
  c = ' ' || c = '\t' || c = '\n' || c = '\x0b' || c = '\x0c' || c = '\r'

/-- Models char::is_ascii. -/
def is_ascii (c : Char) : Bool := c.val < 128

/-- Models str::parse::<usize> (optional leading '+', then decimal
digits) on a 64-bit target: a digit string whose value does not fit
below 2^64 is a parse error (PosOverflow), so the program's unwrap
panics on it. -/
def digits_value : List Char → Option Nat
  | [] => none
  | ds =>
    if ds.all (fun c => c.isDigit) then
      if ds.foldl (fun acc c => 10 * acc + (c.toNat - 48)) 0 < 2 ^ 64 then
        some (ds.foldl (fun acc c => 10 * acc + (c.toNat - 48)) 0)
      else none
    else none

def parse_usize (s : String) : Option Nat :=
  match s.data with
  | '+' :: rest => digits_value rest
  | l => digits_value l

/-- The Lexer state.  The Rust struct also stores current_character, but
that field always equals the character at current_position (with '\x00'
once the cursor runs past the end), so it is kept derived here. -/
structure Lexer where
  src : List Char
  current_position : Nat
  deriving DecidableEq, Repr

/-- Character of `s` at index `i`, with the Rust code's sentinel '\x00'
when the index is past the end (src.chars().nth(i) returning None). -/
def charAt (s : List Char) (i : Nat) : Char := s.getD i '\x00'

def Lexer.current_character (l : Lexer) : Char :=
  charAt l.src l.current_position

def Lexer.peek (l : Lexer) (offset : Nat) : Char :=
  charAt l.src (l.current_position + offset)

def Lexer.advance (l : Lexer) : Lexer :=
  { l with current_position := l.current_position + 1 }

/-- Lexer::new; the nth(0).unwrap() panics on an empty source, hence the
Option. -/
def Lexer.new (source : List Char) : Option Lexer :=
  if source.isEmpty then none else some ⟨source, 0⟩

/-- The while loop of Lexer::match_number, with fuel. -/
def matchNumberGo : Nat → Lexer → Bool → String → Option (LexRes (Token × Lexer))
  | 0, _, _, _ => none
  | fuel + 1, l, has_dot, number =>
    if is_numeric (l.peek 1) = true ∨ l.peek 1 = '.' then
      if has_dot = true ∧ l.advance.current_character = '.' then
        some (.fatal "IllegalCharError" "Found an extra dot")
      else
        matchNumberGo fuel l.advance
          (if l.advance.current_character = '.' then true else has_dot)
          (number.push l.advance.current_character)
    else
      some (.ok (⟨if has_dot then .Float else .Int, number⟩, l.advance))

def Lexer.match_number (fuel : Nat) (l : Lexer) : Option (LexRes (Token × Lexer)) :=
  matchNumberGo fuel l false (String.mk [l.current_character])

/-- The while loop of Lexer::match_string, with fuel. -/
def matchStringGo : Nat → Lexer → String → Option (LexRes (Token × Lexer))
  | 0, _, _ => none
  | fuel + 1, l, s =>
    if is_ascii (l.peek 1) = true ∧ l.peek 1 ≠ '"' then
      matchStringGo fuel l.advance (s.push l.advance.current_character)
    else
      some (.ok (⟨.String, s⟩, l.advance))

def Lexer.match_string (fuel : Nat) (l : Lexer) : Option (LexRes (Token × Lexer)) :=
  matchStringGo fuel l (String.mk [])

/-- The while loop of Lexer::match_keyword, with fuel.  Note there is no
trailing advance: the cursor is left on the last keyword character. -/
def matchKeywordGo : Nat → Lexer → String → Option (LexRes (Token × Lexer))
  | 0, _, _ => none
  | fuel + 1, l, keyword =>
    if is_whitespace (l.peek 1) = true then
      some (.ok (⟨.Keyword, keyword⟩, l))
    else
      matchKeywordGo fuel l.advance (keyword.push l.advance.current_character)

def Lexer.match_keyword (fuel : Nat) (l : Lexer) : Option (LexRes (Token × Lexer)) :=
  matchKeywordGo fuel l (String.mk [l.current_character])

/-- First if of the tokenize loop body: the numeric branch. -/
def step_number (fuel : Nat) (l : Lexer) (tokens : List Token) :
    Option (LexRes (List Token × Lexer)) :=
  if is_numeric l.current_character = true then
    match l.match_number fuel with
    | none => none
    | some (.fatal n d) => some (.fatal n d)
    | some (.ok (t, l1)) => some (.ok (tokens ++ [t], l1))
  else some (.ok (tokens, l))

/-- Second if of the tokenize loop body: the '+' branch. -/
def step_plus (l : Lexer) (tokens : List Token) : List Token :=
  if l.current_character = '+' then tokens ++ [⟨.Plus, String.mk []⟩] else tokens

/-- Third if of the tokenize loop body: the '*' branch. -/
def step_multiply (l : Lexer) (tokens : List Token) : List Token :=
  if l.current_character = '*' then tokens ++ [⟨.Multiply, String.mk []⟩] else tokens

/-- Fourth if of the tokenize loop body: the '"' branch. -/
def step_string (fuel : Nat) (l : Lexer) (tokens : List Token) :
    Option (LexRes (List Token × Lexer)) :=
  if l.current_character = '"' then
    match l.match_string fuel with
    | none => none
    | some (.fatal n d) => some (.fatal n d)
    | some (.ok (t, l1)) => some (.ok (tokens ++ [t], l1))
  else some (.ok (tokens, l))

/-- Fifth if of the tokenize loop body: the keyword branch (guarded by the
negated conditions; note '*' is not excluded, exactly as in the source). -/
def step_keyword (fuel : Nat) (l : Lexer) (tokens : List Token) :
    Option (LexRes (List Token × Lexer)) :=
  if (l.current_character ≠ '+' ∧ l.current_character ≠ '"' ∧
      ¬ is_numeric l.current_character = true) ∧
      ¬ is_whitespace l.current_character = true then
    match l.match_keyword fuel with
    | none => none
    | some (.fatal n d) => some (.fatal n d)
    | some (.ok (t, l1)) => some (.ok (tokens ++ [t], l1))
  else some (.ok (tokens, l))

/-- Sequencing of fallible lexer steps: out-of-fuel and fatal results
short-circuit. -/
def lexBind {α β : Type} (x : Option (LexRes α)) (f : α → Option (LexRes β)) :
    Option (LexRes β) :=
  match x with
  | none => none
  | some (.fatal n d) => some (.fatal n d)
  | some (.ok a) => f a

@[simp] lemma lexBind_none {α β : Type} (f : α → Option (LexRes β)) :
    lexBind none f = none := rfl

@[simp] lemma lexBind_fatal {α β : Type} (n d : String) (f : α → Option (LexRes β)) :
    lexBind (some (.fatal n d)) f = some (.fatal n d) := rfl

@[simp] lemma lexBind_ok {α β : Type} (a : α) (f : α → Option (LexRes β)) :
    lexBind (some (.ok a)) f = f a := rfl

/-- The while loop of Lexer::tokenize: the five sequential (non-exclusive)
ifs, each reading the then-current character, then a final advance. -/
def tokenizeGo : Nat → Lexer → List Token → Option (LexRes (List Token))
  | 0, _, _ => none
  | fuel + 1, l, tokens =>
    if l.current_character = '\x00' then
      some (.ok tokens)
    else
      lexBind (step_number fuel l tokens) (fun r1 =>
        lexBind (step_string fuel r1.2 (step_multiply r1.2 (step_plus r1.2 r1.1)))
          (fun r2 =>
            lexBind (step_keyword fuel r2.2 r2.1) (fun r3 =>
              tokenizeGo fuel r3.2.advance r3.1)))

def Lexer.tokenize (fuel : Nat) (l : Lexer) : Option (LexRes (List Token)) :=
  tokenizeGo fuel l []

/-- Proposition: the tokenize loop halts on this source line (some fuel
suffices).  The Rust loop has no fuel, so `¬ tokenize_halts src` means the
Rust scan never returns. -/
def tokenize_halts (src : List Char) : Prop :=
  ∃ fuel res, tokenizeGo fuel ⟨src, 0⟩ [] = some res

/-- Outcome of running evaluator code: the list of lines printed so far,
then either normal completion, an Error::throw (name, description), or an
unchecked panic (unwrap on an empty pop / failed parse). -/
inductive Outcome (α : Type) where
  | ok (out : List String) (a : α)
  | fatal (out : List String) (name description : String)
  | panicked (out : List String)
  deriving DecidableEq, Repr

/-- Tail of Runner::add after the second operand is resolved: the type
check, the two usize parses (a failed parse is an unwrap panic), the
64-bit usize addition (whose overflow aborts the debug build, modelled
as the panic outcome), the println of the sum, and the result token
(which takes the first operand's kind). -/
def add_finish (first second : Token) (rest : List Token) (out : List String) :
    Outcome (Token × List Token) :=
  if first.token_type ≠ second.token_type then
    .fatal out "Mismatched types" "Cannot add on 2 values of different types"
  else
    match parse_usize first.token_value, parse_usize second.token_value with
    | some a, some b =>
      if a + b < 2 ^ 64 then
        .ok (out ++ [Nat.repr (a + b)]) (⟨first.token_type, Nat.repr (a + b)⟩, rest)
      else .panicked out
    | _, _ => .panicked out

/-- Runner::add.  The stack list's head is the FRONT of the VecDeque;
add pops `first` and `second` from the front, recursing when `second`
is a Plus token. -/
def Runner.add : List Token → Outcome (Token × List Token)
  | [] => .panicked []
  | [_] => .panicked []
  | first :: second :: rest =>
    if second.token_type = TokenType.Plus then
      match Runner.add rest with
      | .ok out (second2, rest2) => add_finish first second2 rest2 out
      | .fatal out n d => .fatal out n d
      | .panicked out => .panicked out
    else add_finish first second rest []

/-- Runner::puts: pop one token from the BACK of the stack and print its
payload; popping from an empty stack panics. -/
def Runner.puts (stack : List Token) : Outcome (List Token) :=
  match stack.getLast? with
  | none => .panicked []
  | some t => .ok [t.token_value] stack.dropLast

/-- Runner::handle_keyword: dispatch on the keyword's exact text. -/
def Runner.handle_keyword (token : Token) (stack : List Token) :
    Outcome (List Token) :=
  if token.token_value = "puts" then Runner.puts stack
  else
    .fatal [] "Unknown keyword error"
      ("No such keyword: " ++ token.token_value)

def prepend_out (out : List String) : Outcome Unit → Outcome Unit
  | .ok out2 u => .ok (out ++ out2) u
  | .fatal out2 n d => .fatal (out ++ out2) n d
  | .panicked out2 => .panicked (out ++ out2)

/-- The loop of Runner::start, with fuel (each iteration pops from the
back; a Plus result token is pushed onto the front; every other token
kind is dropped). -/
def Runner.startGo : Nat → List Token → Option (Outcome Unit)
  | 0, _ => none
  | fuel + 1, stack =>
    match stack.getLast? with
    | none => some (.ok [] ())
    | some token =>
      if token.token_type = TokenType.Plus then
        match Runner.add stack.dropLast with
        | .ok out (t, rest2) =>
          match Runner.startGo fuel (t :: rest2) with
          | none => none
          | some o => some (prepend_out out o)
        | .fatal out n d => some (.fatal out n d)
        | .panicked out => some (.panicked out)
      else if token.token_type = TokenType.Keyword then
        match Runner.handle_keyword token stack.dropLast with
        | .ok out rest2 =>
          match Runner.startGo fuel rest2 with
          | none => none
          | some o => some (prepend_out out o)
        | .fatal out n d => some (.fatal out n d)
        | .panicked out => some (.panicked out)
      else Runner.startGo fuel stack.dropLast

/-- One iteration of the main loop: build the Lexer for one input line
(as returned by get_input, trailing newline included), tokenize it, load
the tokens into the deque and run the Runner. -/
def run_line (fuel : Nat) (line : List Char) : Option (Outcome Unit) :=
  match Lexer.new line with
  | none => some (.panicked [])
  | some lx =>
    match lx.tokenize fuel with
    | none => none
    | some (.fatal n d) => some (.fatal [] n d)
    | some (.ok tokens) => Runner.startGo fuel tokens

/- ------------------------------------------------------------------ -/
/- Character-class facts                                              -/
/- ------------------------------------------------------------------ -/

lemma ws_cases (c : Char) (h : is_whitespace c = true) :
    c = ' ' ∨ c = '\t' ∨ c = '\n' ∨ c = '\x0b' ∨ c = '\x0c' ∨ c = '\r' := by
  simp [is_whitespace] at h
  tauto

lemma ws_props (c : Char) (h : is_whitespace c = true) :
    c ≠ '\x00' ∧ is_numeric c = false ∧ c ≠ '+' ∧ c ≠ '*' ∧ c ≠ '"' ∧ c ≠ '.' := by
  rcases ws_cases c h with h1 | h1 | h1 | h1 | h1 | h1 <;> subst h1 <;>
    exact ⟨by decide, by decide, by decide, by decide, by decide, by decide⟩

lemma digit_val (c : Char) (h : is_numeric c = true) :
    48 ≤ c.val ∧ c.val ≤ 57 := by
  simpa [is_numeric, Char.isDigit] using h

lemma digit_ne_dot (c : Char) (h : is_numeric c = true) : c ≠ '.' := by
  intro heq; subst heq; exact absurd h (by decide)

lemma digit_ne_nul (c : Char) (h : is_numeric c = true) : c ≠ '\x00' := by
  intro heq; subst heq; exact absurd h (by decide)

lemma digit_not_ws (c : Char) (h : is_numeric c = true) :
    is_whitespace c = false := by
  cases hw : is_whitespace c
  · rfl
  · rcases ws_cases c hw with h1 | h1 | h1 | h1 | h1 | h1 <;> subst h1 <;>
      exact absurd h (by decide)

lemma dot_not_ws : is_whitespace '.' = false := by decide

/- ------------------------------------------------------------------ -/
/- charAt facts                                                       -/
/- ------------------------------------------------------------------ -/

lemma charAt_nil (i : Nat) : charAt [] i = '\x00' := by
  simp [charAt]

lemma charAt_cons_zero (c : Char) (l : List Char) : charAt (c :: l) 0 = c := rfl

lemma charAt_cons_succ (c : Char) (l : List Char) (i : Nat) :
    charAt (c :: l) (i + 1) = charAt l i := rfl

lemma charAt_append (pre l : List Char) (i : Nat) :
    charAt (pre ++ l) (pre.length + i) = charAt l i := by
  induction pre with
  | nil => simp
  | cons a t ih =>
    show charAt (a :: (t ++ l)) (t.length + 1 + i) = charAt l i
    rw [Nat.add_right_comm, charAt_cons_succ]
    exact ih

lemma charAt_past (l : List Char) (i : Nat) (h : l.length ≤ i) :
    charAt l i = '\x00' := by
  simp [charAt, List.getD]
  rw [List.getElem?_eq_none h]
  rfl

lemma charAt_lt (l : List Char) (i : Nat) (h : charAt l i ≠ '\x00') :
    i < l.length := by
  by_contra hc
  push_neg at hc
  exact h (charAt_past l i hc)

lemma charAt_mem (l : List Char) (i : Nat) (h : i < l.length) :
    charAt l i ∈ l := by
  rw [charAt, List.getD_eq_getElem l _ h]
  exact List.getElem_mem h

/- ------------------------------------------------------------------ -/
/- String facts                                                       -/
/- ------------------------------------------------------------------ -/

lemma mk_push (l : List Char) (c : Char) :
    (String.mk l).push c = String.mk (l ++ [c]) := rfl

lemma mk_append_mk (a b : List Char) :
    String.mk a ++ String.mk b = String.mk (a ++ b) := rfl

lemma push_mk_append (a : String) (c : Char) (l : List Char) :
    a.push c ++ String.mk l = a ++ String.mk (c :: l) := by
  cases a with
  | mk d =>
    rw [mk_push, mk_append_mk, mk_append_mk]
    simp

lemma append_mk_nil (a : String) : a ++ String.mk [] = a := by
  cases a with
  | mk d =>
    rw [mk_append_mk]
    simp

/- ------------------------------------------------------------------ -/
/- Symbolic runs of the three matcher loops                            -/
/- ------------------------------------------------------------------ -/

/-- Running the number loop over a block of digits `ds` that is followed
by a terminator that is neither a digit nor a dot.  The cursor starts on
`x`, the character already accumulated into `acc`. -/
lemma matchNumberGo_run (ds : List Char) :
    ∀ (pre : List Char) (x : Char) (rest : List Char) (hd : Bool)
      (acc : String) (fuel : Nat),
    (∀ c ∈ ds, is_numeric c = true) →
    is_numeric (charAt rest 0) = false → charAt rest 0 ≠ '.' →
    ds.length < fuel →
    matchNumberGo fuel ⟨pre ++ ((x :: ds) ++ rest), pre.length⟩ hd acc =
      some (.ok (⟨if hd then .Float else .Int, acc ++ String.mk ds⟩,
        ⟨pre ++ ((x :: ds) ++ rest), pre.length + ds.length + 1⟩)) := by
  induction ds with
  | nil =>
    intro pre x rest hd acc fuel _ h1 h2 hf
    obtain ⟨f, rfl⟩ : ∃ f, fuel = f + 1 := ⟨fuel - 1, by omega⟩
    have hpeek : (Lexer.mk (pre ++ (([x] : List Char) ++ rest)) pre.length).peek 1 =
        charAt rest 0 :=
      charAt_append pre ([x] ++ rest) 1
    simp only [matchNumberGo]
    rw [if_neg]
    · rw [append_mk_nil]
      rfl
    · rw [hpeek]
      rintro (hc | hc)
      · rw [h1] at hc; exact Bool.false_ne_true hc
      · exact h2 hc
  | cons d ds ih =>
    intro pre x rest hd acc fuel hds h1 h2 hf
    obtain ⟨f, rfl⟩ : ∃ f, fuel = f + 1 := ⟨fuel - 1, by omega⟩
    have hd_dig : is_numeric d = true := hds d (by simp)
    have hds2 : ∀ c ∈ ds, is_numeric c = true := fun c hc => hds c (by simp [hc])
    have hpeek : (Lexer.mk (pre ++ ((x :: d :: ds) ++ rest)) pre.length).peek 1 = d :=
      charAt_append pre ((x :: d :: ds) ++ rest) 1
    have hcur : (Lexer.mk (pre ++ ((x :: d :: ds) ++ rest)) pre.length).advance.current_character = d :=
      charAt_append pre ((x :: d :: ds) ++ rest) 1
    have hadv : (Lexer.mk (pre ++ ((x :: d :: ds) ++ rest)) pre.length).advance =
        Lexer.mk ((pre ++ [x]) ++ ((d :: ds) ++ rest)) (pre ++ [x]).length := by
      simp [Lexer.advance, List.append_assoc]
    simp only [matchNumberGo]
    rw [if_pos (by rw [hpeek]; exact Or.inl hd_dig)]
    rw [if_neg (by rintro ⟨_, hc⟩; rw [hcur] at hc; exact digit_ne_dot d hd_dig hc)]
    rw [hcur, if_neg (digit_ne_dot d hd_dig), hadv]
    rw [ih (pre ++ [x]) d rest hd (acc.push d) f hds2 h1 h2 (by simp at hf ⊢; omega)]
    rw [push_mk_append]
    simp [List.append_assoc]
    omega

/-- Running the string loop over a body of ASCII, non-quote characters up
to the closing quote.  The cursor starts on `x` (initially the opening
quote); the final advance leaves it ON the closing quote. -/
lemma matchStringGo_run (body : List Char) :
    ∀ (pre : List Char) (x : Char) (rest : List Char) (acc : String) (fuel : Nat),
    (∀ c ∈ body, is_ascii c = true ∧ c ≠ '"') →
    body.length < fuel →
    matchStringGo fuel ⟨pre ++ ((x :: body) ++ ('"' :: rest)), pre.length⟩ acc =
      some (.ok (⟨.String, acc ++ String.mk body⟩,
        ⟨pre ++ ((x :: body) ++ ('"' :: rest)), pre.length + body.length + 1⟩)) := by
  induction body with
  | nil =>
    intro pre x rest acc fuel _ hf
    obtain ⟨f, rfl⟩ : ∃ f, fuel = f + 1 := ⟨fuel - 1, by omega⟩
    have hpeek : (Lexer.mk (pre ++ (([x] : List Char) ++ ('"' :: rest))) pre.length).peek 1 = '"' :=
      charAt_append pre ([x] ++ ('"' :: rest)) 1
    simp only [matchStringGo]
    rw [if_neg (by rintro ⟨_, hc⟩; exact hc hpeek)]
    rw [append_mk_nil]
    rfl
  | cons b body ih =>
    intro pre x rest acc fuel hb hf
    obtain ⟨f, rfl⟩ : ∃ f, fuel = f + 1 := ⟨fuel - 1, by omega⟩
    have hb1 : is_ascii b = true ∧ b ≠ '"' := hb b (by simp)
    have hb2 : ∀ c ∈ body, is_ascii c = true ∧ c ≠ '"' := fun c hc => hb c (by simp [hc])
    have hpeek : (Lexer.mk (pre ++ ((x :: b :: body) ++ ('"' :: rest))) pre.length).peek 1 = b :=
      charAt_append pre ((x :: b :: body) ++ ('"' :: rest)) 1
    have hcur : (Lexer.mk (pre ++ ((x :: b :: body) ++ ('"' :: rest))) pre.length).advance.current_character = b :=
      charAt_append pre ((x :: b :: body) ++ ('"' :: rest)) 1
    have hadv : (Lexer.mk (pre ++ ((x :: b :: body) ++ ('"' :: rest))) pre.length).advance =
        Lexer.mk ((pre ++ [x]) ++ ((b :: body) ++ ('"' :: rest))) (pre ++ [x]).length := by
      simp [Lexer.advance, List.append_assoc]
    simp only [matchStringGo]
    rw [if_pos (by rw [hpeek]; exact ⟨hb1.1, hb1.2⟩)]
    rw [hcur, hadv]
    rw [ih (pre ++ [x]) b rest (acc.push b) f hb2 (by simp at hf ⊢; omega)]
    rw [push_mk_append]
    simp [List.append_assoc]
    omega

/-- Running the keyword loop over non-whitespace characters `ks` up to
(but not including) a whitespace character `w`.  The cursor starts on
`x`, the character already accumulated into `acc`; it is left on the last
keyword character (no trailing advance). -/
lemma matchKeywordGo_run (ks : List Char) :
    ∀ (pre : List Char) (x w : Char) (rest : List Char) (acc : String) (fuel : Nat),
    (∀ c ∈ ks, is_whitespace c = false) →
    is_whitespace w = true →
    ks.length < fuel →
    matchKeywordGo fuel ⟨pre ++ ((x :: ks) ++ (w :: rest)), pre.length⟩ acc =
      some (.ok (⟨.Keyword, acc ++ String.mk ks⟩,
        ⟨pre ++ ((x :: ks) ++ (w :: rest)), pre.length + ks.length⟩)) := by
  induction ks with
  | nil =>
    intro pre x w rest acc fuel _ hw hf
    obtain ⟨f, rfl⟩ : ∃ f, fuel = f + 1 := ⟨fuel - 1, by omega⟩
    have hpeek : (Lexer.mk (pre ++ (([x] : List Char) ++ (w :: rest))) pre.length).peek 1 = w :=
      charAt_append pre ([x] ++ (w :: rest)) 1
    simp only [matchKeywordGo]
    rw [if_pos (by rw [hpeek]; exact hw)]
    rw [append_mk_nil]
    rfl
  | cons k ks ih =>
    intro pre x w rest acc fuel hk hw hf
    obtain ⟨f, rfl⟩ : ∃ f, fuel = f + 1 := ⟨fuel - 1, by omega⟩
    have hk1 : is_whitespace k = false := hk k (by simp)
    have hk2 : ∀ c ∈ ks, is_whitespace c = false := fun c hc => hk c (by simp [hc])
    have hpeek : (Lexer.mk (pre ++ ((x :: k :: ks) ++ (w :: rest))) pre.length).peek 1 = k :=
      charAt_append pre ((x :: k :: ks) ++ (w :: rest)) 1
    have hcur : (Lexer.mk (pre ++ ((x :: k :: ks) ++ (w :: rest))) pre.length).advance.current_character = k :=
      charAt_append pre ((x :: k :: ks) ++ (w :: rest)) 1
    have hadv : (Lexer.mk (pre ++ ((x :: k :: ks) ++ (w :: rest))) pre.length).advance =
        Lexer.mk ((pre ++ [x]) ++ ((k :: ks) ++ (w :: rest))) (pre ++ [x]).length := by
      simp [Lexer.advance, List.append_assoc]
    simp only [matchKeywordGo]
    rw [if_neg (by rw [hpeek, hk1]; exact Bool.false_ne_true)]
    rw [hcur, hadv]
    rw [ih (pre ++ [x]) k w rest (acc.push k) f hk2 hw (by simp at hf ⊢; omega)]
    rw [push_mk_append]
    simp [List.append_assoc]
    omega

/- ------------------------------------------------------------------ -/
/- Facts about the five sequential ifs of the tokenize loop body       -/
/- ------------------------------------------------------------------ -/

lemma step_number_skip (fuel : Nat) (l : Lexer) (tokens : List Token)
    (h : is_numeric l.current_character = false) :
    step_number fuel l tokens = some (.ok (tokens, l)) := by
  simp [step_number, h]

lemma step_plus_no (l : Lexer) (tokens : List Token)
    (h : l.current_character ≠ '+') : step_plus l tokens = tokens := by
  simp [step_plus, h]

lemma step_plus_yes (l : Lexer) (tokens : List Token)
    (h : l.current_character = '+') :
    step_plus l tokens = tokens ++ [⟨.Plus, String.mk []⟩] := by
  simp [step_plus, h]

lemma step_multiply_no (l : Lexer) (tokens : List Token)
    (h : l.current_character ≠ '*') : step_multiply l tokens = tokens := by
  simp [step_multiply, h]

lemma step_multiply_yes (l : Lexer) (tokens : List Token)
    (h : l.current_character = '*') :
    step_multiply l tokens = tokens ++ [⟨.Multiply, String.mk []⟩] := by
  simp [step_multiply, h]

lemma step_string_skip (fuel : Nat) (l : Lexer) (tokens : List Token)
    (h : l.current_character ≠ '"') :
    step_string fuel l tokens = some (.ok (tokens, l)) := by
  simp [step_string, h]

lemma step_keyword_skip_ws (fuel : Nat) (l : Lexer) (tokens : List Token)
    (h : is_whitespace l.current_character = true) :
    step_keyword fuel l tokens = some (.ok (tokens, l)) := by
  simp [step_keyword, h]

lemma step_keyword_skip_of (fuel : Nat) (l : Lexer) (tokens : List Token)
    (h : l.current_character = '+' ∨ l.current_character = '"' ∨
      is_numeric l.current_character = true) :
    step_keyword fuel l tokens = some (.ok (tokens, l)) := by
  rcases h with h | h | h <;> simp [step_keyword, h]

lemma step_keyword_skip_neg (fuel : Nat) (l : Lexer) (tokens : List Token)
    (h : ¬ ((l.current_character ≠ '+' ∧ l.current_character ≠ '"' ∧
      ¬ is_numeric l.current_character = true) ∧
      ¬ is_whitespace l.current_character = true)) :
    step_keyword fuel l tokens = some (.ok (tokens, l)) := by
  rw [step_keyword, if_neg h]

lemma tokenizeGo_succ (f : Nat) (l : Lexer) (tokens : List Token)
    (h0 : l.current_character ≠ '\x00') :
    tokenizeGo (f + 1) l tokens =
      lexBind (step_number f l tokens) (fun r1 =>
        lexBind (step_string f r1.2 (step_multiply r1.2 (step_plus r1.2 r1.1)))
          (fun r2 =>
            lexBind (step_keyword f r2.2 r2.1) (fun r3 =>
              tokenizeGo f r3.2.advance r3.1))) := by
  simp only [tokenizeGo]
  rw [if_neg h0]

/- ------------------------------------------------------------------ -/
/- One full iteration of the tokenize loop, per character class        -/
/- ------------------------------------------------------------------ -/

/-- A whitespace character produces no token; the scan advances past it. -/
lemma tokenize_step_ws (fuel : Nat) (pre rest : List Char) (c : Char)
    (tokens : List Token) (hc : is_whitespace c = true) (hf : 1 ≤ fuel) :
    tokenizeGo fuel ⟨pre ++ (c :: rest), pre.length⟩ tokens =
      tokenizeGo (fuel - 1) ⟨pre ++ (c :: rest), pre.length + 1⟩ tokens := by
  obtain ⟨f, rfl⟩ : ∃ f, fuel = f + 1 := ⟨fuel - 1, by omega⟩
  have hcur : (Lexer.mk (pre ++ (c :: rest)) pre.length).current_character = c :=
    charAt_append pre (c :: rest) 0
  obtain ⟨h1, h2, h3, h4, h5, _⟩ := ws_props c hc
  rw [tokenizeGo_succ _ _ _ (by rw [hcur]; exact h1)]
  rw [step_number_skip _ _ _ (by rw [hcur]; exact h2)]
  simp only [lexBind_ok]
  rw [step_plus_no _ _ (by rw [hcur]; exact h3)]
  rw [step_multiply_no _ _ (by rw [hcur]; exact h4)]
  rw [step_string_skip _ _ _ (by rw [hcur]; exact h5)]
  simp only [lexBind_ok]
  rw [step_keyword_skip_ws _ _ _ (by rw [hcur]; exact hc)]
  simp only [lexBind_ok]
  simp [Lexer.advance]

/-- A '+' produces a Plus token with empty payload; the scan advances. -/
lemma tokenize_step_plus (fuel : Nat) (pre rest : List Char)
    (tokens : List Token) (hf : 1 ≤ fuel) :
    tokenizeGo fuel ⟨pre ++ ('+' :: rest), pre.length⟩ tokens =
      tokenizeGo (fuel - 1) ⟨pre ++ ('+' :: rest), pre.length + 1⟩
        (tokens ++ [⟨.Plus, String.mk []⟩]) := by
  obtain ⟨f, rfl⟩ : ∃ f, fuel = f + 1 := ⟨fuel - 1, by omega⟩
  have hcur : (Lexer.mk (pre ++ ('+' :: rest)) pre.length).current_character = '+' :=
    charAt_append pre ('+' :: rest) 0
  rw [tokenizeGo_succ _ _ _ (by rw [hcur]; decide)]
  rw [step_number_skip _ _ _ (by rw [hcur]; decide)]
  simp only [lexBind_ok]
  rw [step_plus_yes _ _ hcur]
  rw [step_multiply_no _ _ (by rw [hcur]; decide)]
  rw [step_string_skip _ _ _ (by rw [hcur]; decide)]
  simp only [lexBind_ok]
  rw [step_keyword_skip_of _ _ _ (Or.inl hcur)]
  simp only [lexBind_ok]
  simp [Lexer.advance]

/-- A digit starts a number: the whole digit run is consumed into one
Int token; the cursor then rests on the terminator `c` (here whitespace,
so the remaining ifs of the same iteration produce nothing) and the final
advance moves past it. -/
lemma tokenize_step_number (fuel : Nat) (pre rest : List Char) (d : Char)
    (ds : List Char) (c : Char) (tokens : List Token)
    (hd : is_numeric d = true) (hds : ∀ x ∈ ds, is_numeric x = true)
    (hc : is_whitespace c = true) (hf : ds.length + 2 ≤ fuel) :
    tokenizeGo fuel ⟨pre ++ ((d :: ds) ++ (c :: rest)), pre.length⟩ tokens =
      tokenizeGo (fuel - 1)
        ⟨pre ++ ((d :: ds) ++ (c :: rest)), pre.length + ds.length + 2⟩
        (tokens ++ [⟨.Int, String.mk (d :: ds)⟩]) := by
  obtain ⟨f, rfl⟩ : ∃ f, fuel = f + 1 := ⟨fuel - 1, by omega⟩
  have hcur : (Lexer.mk (pre ++ ((d :: ds) ++ (c :: rest))) pre.length).current_character = d :=
    charAt_append pre ((d :: ds) ++ (c :: rest)) 0
  obtain ⟨w1, w2, w3, w4, w5, w6⟩ := ws_props c hc
  have hsn : step_number f ⟨pre ++ ((d :: ds) ++ (c :: rest)), pre.length⟩ tokens =
      some (.ok (tokens ++ [⟨.Int, String.mk (d :: ds)⟩],
        ⟨pre ++ ((d :: ds) ++ (c :: rest)), pre.length + ds.length + 1⟩)) := by
    rw [step_number, if_pos (by rw [hcur]; exact hd)]
    rw [Lexer.match_number, hcur]
    rw [matchNumberGo_run ds pre d (c :: rest) false (String.mk [d]) f hds w2 w6
      (by omega)]
    rw [mk_append_mk]
    simp
  rw [tokenizeGo_succ _ _ _ (by rw [hcur]; exact digit_ne_nul d hd)]
  rw [hsn]
  simp only [lexBind_ok]
  have hcur2 : (Lexer.mk (pre ++ ((d :: ds) ++ (c :: rest))) (pre.length + ds.length + 1)).current_character = c := by
    have e : pre ++ ((d :: ds) ++ (c :: rest)) = (pre ++ (d :: ds)) ++ (c :: rest) := by
      simp [List.append_assoc]
    have e2 : pre.length + ds.length + 1 = (pre ++ (d :: ds)).length := by
      simp
      omega
    show charAt (pre ++ ((d :: ds) ++ (c :: rest))) (pre.length + ds.length + 1) = c
    rw [e, e2]
    exact charAt_append (pre ++ (d :: ds)) (c :: rest) 0
  rw [step_plus_no _ _ (by rw [hcur2]; exact w3)]
  rw [step_multiply_no _ _ (by rw [hcur2]; exact w4)]
  rw [step_string_skip _ _ _ (by rw [hcur2]; exact w5)]
  simp only [lexBind_ok]
  rw [step_keyword_skip_ws _ _ _ (by rw [hcur2]; exact hc)]
  simp only [lexBind_ok]
  simp [Lexer.advance]

/-- An opening quote starts a string: the body up to the closing quote
becomes one String token; the cursor rests ON the closing quote (which
the keyword guard explicitly excludes) and the final advance moves just
past the closing quote. -/
lemma tokenize_step_string (fuel : Nat) (pre rest body : List Char)
    (tokens : List Token) (hb : ∀ x ∈ body, is_ascii x = true ∧ x ≠ '"')
    (hf : body.length + 2 ≤ fuel) :
    tokenizeGo fuel ⟨pre ++ (('"' :: body) ++ ('"' :: rest)), pre.length⟩ tokens =
      tokenizeGo (fuel - 1)
        ⟨pre ++ (('"' :: body) ++ ('"' :: rest)), pre.length + body.length + 2⟩
        (tokens ++ [⟨.String, String.mk body⟩]) := by
  obtain ⟨f, rfl⟩ : ∃ f, fuel = f + 1 := ⟨fuel - 1, by omega⟩
  have hcur : (Lexer.mk (pre ++ (('"' :: body) ++ ('"' :: rest))) pre.length).current_character = '"' :=
    charAt_append pre (('"' :: body) ++ ('"' :: rest)) 0
  rw [tokenizeGo_succ _ _ _ (by rw [hcur]; decide)]
  rw [step_number_skip _ _ _ (by rw [hcur]; decide)]
  simp only [lexBind_ok]
  rw [step_plus_no _ _ (by rw [hcur]; decide)]
  rw [step_multiply_no _ _ (by rw [hcur]; decide)]
  have hss : step_string f ⟨pre ++ (('"' :: body) ++ ('"' :: rest)), pre.length⟩ tokens =
      some (.ok (tokens ++ [⟨.String, String.mk body⟩],
        ⟨pre ++ (('"' :: body) ++ ('"' :: rest)), pre.length + body.length + 1⟩)) := by
    rw [step_string, if_pos hcur]
    rw [Lexer.match_string]
    rw [matchStringGo_run body pre '"' rest (String.mk []) f hb (by omega)]
    rw [mk_append_mk]
    simp
  rw [hss]
  simp only [lexBind_ok]
  have hcur2 : (Lexer.mk (pre ++ (('"' :: body) ++ ('"' :: rest))) (pre.length + body.length + 1)).current_character = '"' := by
    have e : pre ++ (('"' :: body) ++ ('"' :: rest)) = (pre ++ ('"' :: body)) ++ ('"' :: rest) := by
      simp [List.append_assoc]
    have e2 : pre.length + body.length + 1 = (pre ++ ('"' :: body)).length := by
      simp
      omega
    show charAt (pre ++ (('"' :: body) ++ ('"' :: rest))) (pre.length + body.length + 1) = '"'
    rw [e, e2]
    exact charAt_append (pre ++ ('"' :: body)) ('"' :: rest) 0
  rw [step_keyword_skip_of _ _ _ (Or.inr (Or.inl hcur2))]
  simp only [lexBind_ok]
  simp [Lexer.advance]

/-- A plain character starts a keyword: the run of non-whitespace
characters becomes one Keyword token; the cursor is left on the last
keyword character, and the final advance moves onto the following
whitespace character `w`. -/
lemma tokenize_step_keyword (fuel : Nat) (pre rest : List Char) (k : Char)
    (ks : List Char) (w : Char) (tokens : List Token)
    (hk0 : k ≠ '\x00') (hk1 : is_numeric k = false) (hk2 : k ≠ '+')
    (hk3 : k ≠ '*') (hk4 : k ≠ '"') (hk5 : is_whitespace k = false)
    (hks : ∀ x ∈ ks, is_whitespace x = false) (hw : is_whitespace w = true)
    (hf : ks.length + 2 ≤ fuel) :
    tokenizeGo fuel ⟨pre ++ ((k :: ks) ++ (w :: rest)), pre.length⟩ tokens =
      tokenizeGo (fuel - 1)
        ⟨pre ++ ((k :: ks) ++ (w :: rest)), pre.length + ks.length + 1⟩
        (tokens ++ [⟨.Keyword, String.mk (k :: ks)⟩]) := by
  obtain ⟨f, rfl⟩ : ∃ f, fuel = f + 1 := ⟨fuel - 1, by omega⟩
  have hcur : (Lexer.mk (pre ++ ((k :: ks) ++ (w :: rest))) pre.length).current_character = k :=
    charAt_append pre ((k :: ks) ++ (w :: rest)) 0
  rw [tokenizeGo_succ _ _ _ (by rw [hcur]; exact hk0)]
  rw [step_number_skip _ _ _ (by rw [hcur]; exact hk1)]
  simp only [lexBind_ok]
  rw [step_plus_no _ _ (by rw [hcur]; exact hk2)]
  rw [step_multiply_no _ _ (by rw [hcur]; exact hk3)]
  rw [step_string_skip _ _ _ (by rw [hcur]; exact hk4)]
  simp only [lexBind_ok]
  have hsk : step_keyword f ⟨pre ++ ((k :: ks) ++ (w :: rest)), pre.length⟩ tokens =
      some (.ok (tokens ++ [⟨.Keyword, String.mk (k :: ks)⟩],
        ⟨pre ++ ((k :: ks) ++ (w :: rest)), pre.length + ks.length⟩)) := by
    rw [step_keyword, if_pos]
    · rw [Lexer.match_keyword, hcur]
      rw [matchKeywordGo_run ks pre k w rest (String.mk [k]) f hks hw (by omega)]
      rw [mk_append_mk]
      simp
    · rw [hcur]
      exact ⟨⟨hk2, hk4, by rw [hk1]; exact Bool.false_ne_true⟩,
        by rw [hk5]; exact Bool.false_ne_true⟩
  rw [hsk]
  simp only [lexBind_ok]
  simp [Lexer.advance]

/-- When the cursor is at or past the end of the source, the sentinel
'\x00' ends the scan and the accumulated tokens are returned. -/
lemma tokenize_end (fuel : Nat) (src : List Char) (pos : Nat)
    (tokens : List Token) (h : src.length ≤ pos) (hf : 1 ≤ fuel) :
    tokenizeGo fuel ⟨src, pos⟩ tokens = some (.ok tokens) := by
  obtain ⟨f, rfl⟩ : ∃ f, fuel = f + 1 := ⟨fuel - 1, by omega⟩
  simp only [tokenizeGo]
  rw [if_pos (show (Lexer.mk src pos).current_character = '\x00' from
    charAt_past src pos h)]

/- ------------------------------------------------------------------ -/
/- Divergence of the string loop with no terminator ahead              -/
/- ------------------------------------------------------------------ -/

/-- If every character strictly after the cursor (sentinel '\x00'
included, since it is ASCII and not a quote) keeps the loop condition
true, the string loop never returns, whatever the fuel. -/
lemma matchStringGo_diverges (fuel : Nat) :
    ∀ (l : Lexer) (acc : String),
    (∀ j, l.current_position < j →
      is_ascii (charAt l.src j) = true ∧ charAt l.src j ≠ '"') →
    matchStringGo fuel l acc = none := by
  induction fuel with
  | zero => intro l acc _; rfl
  | succ f ih =>
    intro l acc h
    have hp := h (l.current_position + 1) (by omega)
    simp only [matchStringGo]
    rw [if_pos ⟨hp.1, hp.2⟩]
    refine ih l.advance _ (fun j hj => h j ?_)
    have hj2 : l.current_position + 1 < j := hj
    omega

/- ------------------------------------------------------------------ -/
/- Totality of the matcher loops under suitable conditions             -/
/- ------------------------------------------------------------------ -/

/-- The number loop always returns when given more fuel than characters
remain, provided the source's last character is whitespace and at least
one character follows the cursor: the digit run stops strictly inside
the line, and the only fatal outcome is the extra-dot error. -/
lemma matchNumberGo_total (fuel : Nat) :
    ∀ (l : Lexer) (hd : Bool) (acc : String),
    l.src.length - l.current_position < fuel →
    is_whitespace (charAt l.src (l.src.length - 1)) = true →
    l.current_position + 2 ≤ l.src.length →
    ∃ r, matchNumberGo fuel l hd acc = some r ∧
      (∀ n d, r = .fatal n d → n = "IllegalCharError" ∧ d = "Found an extra dot") ∧
      (∀ t l2, r = .ok (t, l2) → l2.src = l.src ∧
        l.current_position < l2.current_position ∧
        l2.current_position + 1 ≤ l.src.length) := by
  induction fuel with
  | zero => intro l hd acc hf _ _; omega
  | succ f ih =>
    intro l hd acc hf hw hp
    by_cases hcond : is_numeric (l.peek 1) = true ∨ l.peek 1 = '.'
    · have hnn : l.peek 1 ≠ '\x00' := by
        rcases hcond with hc | hc
        · exact digit_ne_nul _ hc
        · rw [hc]; decide
      have hnw : is_whitespace (l.peek 1) = false := by
        rcases hcond with hc | hc
        · exact digit_not_ws _ hc
        · rw [hc]; exact dot_not_ws
      have hlt : l.current_position + 1 < l.src.length :=
        charAt_lt _ _ hnn
      have hne : l.current_position + 1 ≠ l.src.length - 1 := by
        intro heq
        have : is_whitespace (charAt l.src (l.current_position + 1)) = false := hnw
        rw [heq, hw] at this
        exact absurd this (by decide)
      have ha : l.advance.current_position = l.current_position + 1 := rfl
      have hs : l.advance.src = l.src := rfl
      simp only [matchNumberGo]
      rw [if_pos hcond]
      by_cases hdot : hd = true ∧ l.advance.current_character = '.'
      · rw [if_pos hdot]
        exact ⟨.fatal _ _, rfl, fun n d h => by
          injection h with h1 h2; exact ⟨h1.symm, h2.symm⟩,
          fun t l2 h => LexRes.noConfusion h⟩
      · rw [if_neg hdot]
        obtain ⟨r, hr, hfat, hok⟩ := ih l.advance
          (if l.advance.current_character = '.' then true else hd)
          (acc.push l.advance.current_character)
          (by rw [hs, ha]; omega) hw (by rw [hs, ha]; omega)
        refine ⟨r, hr, hfat, fun t l2 h => ?_⟩
        obtain ⟨hsrc, hlt2, hle⟩ := hok t l2 h
        rw [hs] at hsrc
        rw [ha] at hlt2
        exact ⟨hsrc, by omega, hle⟩
    · simp only [matchNumberGo]
      rw [if_neg hcond]
      refine ⟨_, rfl, fun n d h => LexRes.noConfusion h, fun t l2 h => ?_⟩
      injection h with h1
      have h4 : l.advance = l2 := congrArg Prod.snd h1
      have ha : l.advance.current_position = l.current_position + 1 := rfl
      rw [← h4]
      exact ⟨rfl, by omega, by omega⟩

/-- The keyword loop returns when some whitespace character lies strictly
ahead of the cursor and the fuel covers the distance; the cursor ends
strictly before that whitespace. -/
lemma matchKeywordGo_total (fuel : Nat) :
    ∀ (l : Lexer) (acc : String) (j : Nat),
    l.current_position < j → is_whitespace (charAt l.src j) = true →
    j - l.current_position ≤ fuel →
    ∃ t l2, matchKeywordGo fuel l acc = some (.ok (t, l2)) ∧
      l2.src = l.src ∧ l.current_position ≤ l2.current_position ∧
      l2.current_position < j := by
  induction fuel with
  | zero => intro l acc j h1 _ h3; omega
  | succ f ih =>
    intro l acc j h1 hw h3
    by_cases hc : is_whitespace (l.peek 1) = true
    · simp only [matchKeywordGo]
      rw [if_pos hc]
      exact ⟨_, _, rfl, rfl, Nat.le_refl _, h1⟩
    · simp only [matchKeywordGo]
      rw [if_neg hc]
      have hne : j ≠ l.current_position + 1 := by
        intro heq
        exact hc (by rw [heq] at hw; exact hw)
      have ha : l.advance.current_position = l.current_position + 1 := rfl
      obtain ⟨t, l2, hr, hsrc, hge, hlt⟩ := ih l.advance
        (acc.push l.advance.current_character) j
        (by rw [ha]; omega) hw (by rw [ha]; omega)
      rw [ha] at hge
      exact ⟨t, l2, hr, hsrc, by omega, hlt⟩

/-- Termination of the tokenize loop from any cursor position, for a
source whose last character is whitespace (the trailing newline of an
input line) and which contains no quote character: the scan returns, and
the only possible fatal result is the extra-dot error. -/
lemma tokenizeGo_total (fuel : Nat) :
    ∀ (l : Lexer) (tokens : List Token),
    is_whitespace (charAt l.src (l.src.length - 1)) = true →
    '"' ∉ l.src →
    l.src.length + 1 - l.current_position < fuel →
    ∃ res, tokenizeGo fuel l tokens = some res ∧
      (∀ n d, res = .fatal n d → n = "IllegalCharError" ∧ d = "Found an extra dot") := by
  induction fuel with
  | zero => intro l tokens _ _ hf; omega
  | succ f ih =>
    intro l tokens hw hq hf
    by_cases h0 : l.current_character = '\x00'
    · refine ⟨.ok tokens, ?_, fun n d h => LexRes.noConfusion h⟩
      simp only [tokenizeGo]
      rw [if_pos h0]
    · have hpos : l.current_position < l.src.length := charAt_lt _ _ h0
      rw [tokenizeGo_succ f l tokens h0]
      have tail : ∀ (l2 : Lexer) (tokens3 : List Token),
          l2.src = l.src → l.current_position ≤ l2.current_position →
          l2.current_position < l.src.length →
          ∃ res, (lexBind (step_string f l2 tokens3) (fun r2 =>
            lexBind (step_keyword f r2.2 r2.1) (fun r3 =>
              tokenizeGo f r3.2.advance r3.1))) = some res ∧
            (∀ n d, res = .fatal n d →
              n = "IllegalCharError" ∧ d = "Found an extra dot") := by
        intro l2 tokens3 hsrc hge hlt
        have hmem : l2.current_character ∈ l.src := by
          have h1 : l2.current_character ∈ l2.src :=
            charAt_mem l2.src l2.current_position (by rw [hsrc]; exact hlt)
          rw [hsrc] at h1
          exact h1
        have hcur2 : l2.current_character ≠ '"' := fun heq => hq (heq ▸ hmem)
        rw [step_string_skip f l2 tokens3 hcur2]
        simp only [lexBind_ok]
        by_cases hg : (l2.current_character ≠ '+' ∧ l2.current_character ≠ '"' ∧
            ¬ is_numeric l2.current_character = true) ∧
            ¬ is_whitespace l2.current_character = true
        · have hne : l2.current_position ≠ l.src.length - 1 := by
            intro heq
            apply hg.2
            show is_whitespace l2.current_character = true
            rw [show l2.current_character = charAt l2.src l2.current_position from rfl,
              hsrc, heq]
            exact hw
          obtain ⟨t3, l3, hr3, hsrc3, hge3, hlt3⟩ := matchKeywordGo_total f l2
            (String.mk [l2.current_character]) (l.src.length - 1)
            (by omega) (by rw [hsrc]; exact hw) (by omega)
          have hsk : step_keyword f l2 tokens3 = some (.ok (tokens3 ++ [t3], l3)) := by
            rw [step_keyword, if_pos hg, Lexer.match_keyword, hr3]
          rw [hsk]
          simp only [lexBind_ok]
          have ha3 : l3.advance.current_position = l3.current_position + 1 := rfl
          refine ih l3.advance (tokens3 ++ [t3]) ?_ ?_ ?_
          · show is_whitespace (charAt l3.src (l3.src.length - 1)) = true
            rw [hsrc3, hsrc]
            exact hw
          · show '"' ∉ l3.src
            rw [hsrc3, hsrc]
            exact hq
          · show l3.advance.src.length + 1 - l3.advance.current_position < f
            rw [show l3.advance.src = l3.src from rfl, hsrc3, hsrc, ha3]
            omega
        · rw [step_keyword_skip_neg f l2 tokens3 hg]
          simp only [lexBind_ok]
          have ha2 : l2.advance.current_position = l2.current_position + 1 := rfl
          refine ih l2.advance tokens3 ?_ ?_ ?_
          · show is_whitespace (charAt l2.advance.src (l2.advance.src.length - 1)) = true
            rw [show l2.advance.src = l2.src from rfl, hsrc]
            exact hw
          · show '"' ∉ l2.advance.src
            rw [show l2.advance.src = l2.src from rfl, hsrc]
            exact hq
          · show l2.advance.src.length + 1 - l2.advance.current_position < f
            rw [show l2.advance.src = l2.src from rfl, hsrc, ha2]
            omega
      by_cases hnum : is_numeric l.current_character = true
      · have hnel : l.current_position ≠ l.src.length - 1 := by
          intro heq
          have hd := digit_not_ws _ hnum
          rw [show l.current_character = charAt l.src l.current_position from rfl,
            heq, hw] at hd
          exact absurd hd (by decide)
        obtain ⟨r, hr, hfat, hok⟩ := matchNumberGo_total f l false
          (String.mk [l.current_character]) (by omega) hw (by omega)
        cases r with
        | fatal n d =>
          have hsn : step_number f l tokens = some (.fatal n d) := by
            rw [step_number, if_pos hnum, Lexer.match_number, hr]
          rw [hsn]
          simp only [lexBind_fatal]
          refine ⟨.fatal n d, rfl, fun n2 d2 h => ?_⟩
          injection h with h1 h2
          rw [← h1, ← h2]
          exact hfat n d rfl
        | ok a =>
          obtain ⟨t, l2⟩ := a
          obtain ⟨hsrc, hlt, hle⟩ := hok t l2 rfl
          have hsn : step_number f l tokens = some (.ok (tokens ++ [t], l2)) := by
            rw [step_number, if_pos hnum, Lexer.match_number, hr]
          rw [hsn]
          simp only [lexBind_ok]
          exact tail l2 (step_multiply l2 (step_plus l2 (tokens ++ [t]))) hsrc
            (by omega) (by omega)
      · rw [step_number_skip f l tokens
          (by cases hx : is_numeric l.current_character
              · rfl
              · exact absurd hx hnum)]
        simp only [lexBind_ok]
        exact tail l (step_multiply l (step_plus l tokens)) rfl (Nat.le_refl _) hpos

/- ------------------------------------------------------------------ -/
/- Composed symbolic tokenizations of whole input lines                -/
/- ------------------------------------------------------------------ -/

lemma tokenizeGo_congr (f1 f2 : Nat) (s1 s2 : List Char) (p1 p2 : Nat)
    (tk : List Token) (hf : f1 = f2) (hs : s1 = s2) (hp : p1 = p2) :
    tokenizeGo f1 ⟨s1, p1⟩ tk = tokenizeGo f2 ⟨s2, p2⟩ tk := by
  rw [hf, hs, hp]

lemma tokenizeGo_congr_all (f1 f2 : Nat) (s1 s2 : List Char) (p1 p2 : Nat)
    (tk1 tk2 : List Token) (hf : f1 = f2) (hs : s1 = s2) (hp : p1 = p2)
    (ht : tk1 = tk2) :
    tokenizeGo f1 ⟨s1, p1⟩ tk1 = tokenizeGo f2 ⟨s2, p2⟩ tk2 := by
  rw [hf, hs, hp, ht]

/-- A run of whitespace characters produces no tokens and just moves the
cursor past itself. -/
lemma tokenize_ws_run (ws : List Char) :
    ∀ (pre rest : List Char) (tokens : List Token) (fuel : Nat),
    (∀ c ∈ ws, is_whitespace c = true) → ws.length ≤ fuel →
    tokenizeGo fuel ⟨pre ++ (ws ++ rest), pre.length⟩ tokens =
      tokenizeGo (fuel - ws.length) ⟨pre ++ (ws ++ rest), pre.length + ws.length⟩
        tokens := by
  induction ws with
  | nil =>
    intro pre rest tokens fuel _ _
    simp
  | cons c ws ih =>
    intro pre rest tokens fuel hws hf
    have hc : is_whitespace c = true := hws c (by simp)
    have hws2 : ∀ x ∈ ws, is_whitespace x = true := fun x hx => hws x (by simp [hx])
    rw [show pre ++ ((c :: ws) ++ rest) = pre ++ (c :: (ws ++ rest)) from by simp]
    rw [tokenize_step_ws fuel pre (ws ++ rest) c tokens hc (by simp at hf; omega)]
    rw [tokenizeGo_congr (fuel - 1) (fuel - 1)
      (pre ++ (c :: (ws ++ rest))) ((pre ++ [c]) ++ (ws ++ rest))
      (pre.length + 1) ((pre ++ [c]).length) tokens rfl (by simp) (by simp)]
    rw [ih (pre ++ [c]) rest tokens (fuel - 1) hws2 (by simp at hf ⊢; omega)]
    refine tokenizeGo_congr _ _ _ _ _ _ _ ?_ (by simp) (by simp; omega)
    simp
    omega

/-- Tokenizing a line of the shape `<int> + <int>` followed by the
trailing newline: exactly an Int token, a Plus token, an Int token. -/
lemma tokenize_int_plus_int (d e : Char) (ds es : List Char) (fuel : Nat)
    (hd : is_numeric d = true) (hds : ∀ x ∈ ds, is_numeric x = true)
    (he : is_numeric e = true) (hes : ∀ x ∈ es, is_numeric x = true)
    (hf : ds.length + es.length + 8 ≤ fuel) :
    tokenizeGo fuel ⟨d :: (ds ++ (' ' :: '+' :: ' ' :: e :: (es ++ ['\n']))), 0⟩ [] =
      some (.ok [⟨.Int, String.mk (d :: ds)⟩, ⟨.Plus, String.mk []⟩,
        ⟨.Int, String.mk (e :: es)⟩]) := by
  rw [tokenizeGo_congr fuel fuel _
    (([] : List Char) ++ ((d :: ds) ++ (' ' :: ('+' :: ' ' :: e :: (es ++ ['\n'])))))
    0 (([] : List Char)).length [] rfl (by simp) (by simp)]
  rw [tokenize_step_number fuel [] ('+' :: ' ' :: e :: (es ++ ['\n'])) d ds ' ' []
    hd hds (by decide) (by omega)]
  rw [tokenizeGo_congr _ _ _
    ((d :: (ds ++ [' '])) ++ ('+' :: (' ' :: e :: (es ++ ['\n']))))
    _ ((d :: (ds ++ [' ']))).length _ rfl (by simp) (by simp)]
  rw [tokenize_step_plus (fuel - 1) (d :: (ds ++ [' ']))
    (' ' :: e :: (es ++ ['\n'])) _ (by omega)]
  rw [tokenizeGo_congr _ _ _
    ((d :: (ds ++ [' ', '+'])) ++ (' ' :: (e :: (es ++ ['\n']))))
    _ ((d :: (ds ++ [' ', '+']))).length _ rfl (by simp) (by simp <;> omega)]
  rw [tokenize_step_ws (fuel - 1 - 1) (d :: (ds ++ [' ', '+']))
    (e :: (es ++ ['\n'])) ' ' _ (by decide) (by omega)]
  rw [tokenizeGo_congr _ _ _
    ((d :: (ds ++ [' ', '+', ' '])) ++ ((e :: es) ++ ('\n' :: [])))
    _ ((d :: (ds ++ [' ', '+', ' ']))).length _ rfl (by simp) (by simp <;> omega)]
  rw [tokenize_step_number (fuel - 1 - 1 - 1) (d :: (ds ++ [' ', '+', ' ']))
    [] e es '\n' _ he hes (by decide) (by omega)]
  rw [tokenize_end _ _ _ _ (by simp <;> omega) (by omega)]
  simp

/-- Tokenizing a line of the shape `"<body>" puts` followed by the
trailing newline: exactly a String token and the Keyword token "puts". -/
lemma tokenize_string_puts (s : List Char) (fuel : Nat)
    (hs : ∀ x ∈ s, is_ascii x = true ∧ x ≠ '"')
    (hf : s.length + 12 ≤ fuel) :
    tokenizeGo fuel ⟨'"' :: (s ++ ('"' :: ' ' :: 'p' :: 'u' :: 't' :: 's' :: ['\n'])), 0⟩ [] =
      some (.ok [⟨.String, String.mk s⟩, ⟨.Keyword, String.mk ['p', 'u', 't', 's']⟩]) := by
  rw [tokenizeGo_congr fuel fuel _
    (([] : List Char) ++ (('"' :: s) ++ ('"' :: (' ' :: 'p' :: 'u' :: 't' :: 's' :: ['\n']))))
    0 (([] : List Char)).length [] rfl (by simp) (by simp)]
  rw [tokenize_step_string fuel [] (' ' :: 'p' :: 'u' :: 't' :: 's' :: ['\n']) s []
    hs (by omega)]
  rw [tokenizeGo_congr _ _ _
    (('"' :: (s ++ ['"'])) ++ (' ' :: ('p' :: 'u' :: 't' :: 's' :: ['\n'])))
    _ (('"' :: (s ++ ['"']))).length _ rfl (by simp) (by simp <;> omega)]
  rw [tokenize_step_ws (fuel - 1) ('"' :: (s ++ ['"']))
    ('p' :: 'u' :: 't' :: 's' :: ['\n']) ' ' _ (by decide) (by omega)]
  rw [tokenizeGo_congr _ _ _
    (('"' :: (s ++ ['"', ' '])) ++ (('p' :: ['u', 't', 's']) ++ ('\n' :: [])))
    _ (('"' :: (s ++ ['"', ' ']))).length _ rfl (by simp) (by simp <;> omega)]
  rw [tokenize_step_keyword (fuel - 1 - 1) ('"' :: (s ++ ['"', ' '])) []
    'p' ['u', 't', 's'] '\n' _ (by decide) (by decide) (by decide) (by decide)
    (by decide) (by decide) (by decide) (by decide) (by simp <;> omega)]
  rw [tokenizeGo_congr _ _ _
    (('"' :: (s ++ ['"', ' ', 'p', 'u', 't', 's'])) ++ (('\n' :: []) ++ ([] : List Char)))
    _ (('"' :: (s ++ ['"', ' ', 'p', 'u', 't', 's']))).length _ rfl (by simp)
    (by simp <;> omega)]
  rw [tokenize_ws_run ['\n'] ('"' :: (s ++ ['"', ' ', 'p', 'u', 't', 's'])) []
    _ _ (by decide) (by simp <;> omega)]
  rw [tokenize_end _ _ _ _ (by simp <;> omega) (by simp <;> omega)]
  simp

/-- Tokenizing a line that is only whitespace around a single '+': a lone
Plus token. -/
lemma tokenize_lone_plus (w1 w2 : List Char) (fuel : Nat)
    (h1 : ∀ c ∈ w1, is_whitespace c = true) (h2 : ∀ c ∈ w2, is_whitespace c = true)
    (hf : w1.length + w2.length + 4 ≤ fuel) :
    tokenizeGo fuel ⟨w1 ++ ('+' :: w2), 0⟩ [] =
      some (.ok [⟨.Plus, String.mk []⟩]) := by
  rw [tokenizeGo_congr fuel fuel _
    (([] : List Char) ++ (w1 ++ ('+' :: w2))) 0 (([] : List Char)).length []
    rfl (by simp) (by simp)]
  rw [tokenize_ws_run w1 [] ('+' :: w2) [] fuel h1 (by omega)]
  rw [tokenizeGo_congr _ _ _ (w1 ++ ('+' :: w2)) _ w1.length _ rfl (by simp) (by simp)]
  rw [tokenize_step_plus (fuel - w1.length) w1 w2 [] (by omega)]
  rw [tokenizeGo_congr _ _ _ ((w1 ++ ['+']) ++ (w2 ++ ([] : List Char)))
    _ ((w1 ++ ['+'])).length _ rfl (by simp) (by simp <;> omega)]
  rw [tokenize_ws_run w2 (w1 ++ ['+']) [] _ _ h2 (by omega)]
  rw [tokenize_end _ _ _ _ (by simp <;> omega) (by omega)]
  simp

/- ------------------------------------------------------------------ -/
/- What the character after a numeric literal (and after a string's    -/
/- closing quote) does, for every remaining character class            -/
/- ------------------------------------------------------------------ -/

/-- A '+' immediately after a completed numeric literal is examined by
the '+' branch of the same iteration and produces its Plus token. -/
lemma tokenize_step_number_plus (fuel : Nat) (pre rest : List Char) (d : Char)
    (ds : List Char) (tokens : List Token)
    (hd : is_numeric d = true) (hds : ∀ x ∈ ds, is_numeric x = true)
    (hf : ds.length + 2 ≤ fuel) :
    tokenizeGo fuel ⟨pre ++ ((d :: ds) ++ ('+' :: rest)), pre.length⟩ tokens =
      tokenizeGo (fuel - 1)
        ⟨pre ++ ((d :: ds) ++ ('+' :: rest)), pre.length + ds.length + 2⟩
        (tokens ++ [⟨.Int, String.mk (d :: ds)⟩, ⟨.Plus, String.mk []⟩]) := by
  obtain ⟨f, rfl⟩ : ∃ f, fuel = f + 1 := ⟨fuel - 1, by omega⟩
  have hcur : (Lexer.mk (pre ++ ((d :: ds) ++ ('+' :: rest))) pre.length).current_character = d :=
    charAt_append pre ((d :: ds) ++ ('+' :: rest)) 0
  have hsn : step_number f ⟨pre ++ ((d :: ds) ++ ('+' :: rest)), pre.length⟩ tokens =
      some (.ok (tokens ++ [⟨.Int, String.mk (d :: ds)⟩],
        ⟨pre ++ ((d :: ds) ++ ('+' :: rest)), pre.length + ds.length + 1⟩)) := by
    rw [step_number, if_pos (by rw [hcur]; exact hd)]
    rw [Lexer.match_number, hcur]
    rw [matchNumberGo_run ds pre d ('+' :: rest) false (String.mk [d]) f hds
      (by rw [charAt_cons_zero]; decide) (by rw [charAt_cons_zero]; decide)
      (by omega)]
    rw [mk_append_mk]
    simp
  rw [tokenizeGo_succ _ _ _ (by rw [hcur]; exact digit_ne_nul d hd)]
  rw [hsn]
  simp only [lexBind_ok]
  have hcur2 : (Lexer.mk (pre ++ ((d :: ds) ++ ('+' :: rest))) (pre.length + ds.length + 1)).current_character = '+' := by
    have e : pre ++ ((d :: ds) ++ ('+' :: rest)) = (pre ++ (d :: ds)) ++ ('+' :: rest) := by
      simp [List.append_assoc]
    have e2 : pre.length + ds.length + 1 = (pre ++ (d :: ds)).length := by
      simp
      omega
    show charAt (pre ++ ((d :: ds) ++ ('+' :: rest))) (pre.length + ds.length + 1) = '+'
    rw [e, e2]
    exact charAt_append (pre ++ (d :: ds)) ('+' :: rest) 0
  rw [step_plus_yes _ _ hcur2]
  rw [step_multiply_no _ _ (by rw [hcur2]; decide)]
  rw [step_string_skip _ _ _ (by rw [hcur2]; decide)]
  simp only [lexBind_ok]
  rw [step_keyword_skip_of _ _ _ (Or.inl hcur2)]
  simp only [lexBind_ok]
  exact tokenizeGo_congr_all _ _ _ _ _ _ _ _ (by omega) rfl (by simp <;> omega)
    (by simp)

/-- A '*' immediately after a completed numeric literal is examined by
the '*' branch of the same iteration and produces its Multiply token;
and because the keyword guard does not exclude '*', keyword matching
then also runs from the '*', additionally producing a Keyword token
that starts with '*'. -/
lemma tokenize_step_number_star (fuel : Nat) (pre rest : List Char) (d : Char)
    (ds ks : List Char) (w : Char) (tokens : List Token)
    (hd : is_numeric d = true) (hds : ∀ x ∈ ds, is_numeric x = true)
    (hks : ∀ x ∈ ks, is_whitespace x = false) (hw : is_whitespace w = true)
    (hf : ds.length + ks.length + 4 ≤ fuel) :
    tokenizeGo fuel
      ⟨pre ++ ((d :: ds) ++ ('*' :: (ks ++ (w :: rest)))), pre.length⟩ tokens =
      tokenizeGo (fuel - 1)
        ⟨pre ++ ((d :: ds) ++ ('*' :: (ks ++ (w :: rest)))),
          pre.length + ds.length + ks.length + 2⟩
        (tokens ++ [⟨.Int, String.mk (d :: ds)⟩, ⟨.Multiply, String.mk []⟩,
          ⟨.Keyword, String.mk ('*' :: ks)⟩]) := by
  obtain ⟨f, rfl⟩ : ∃ f, fuel = f + 1 := ⟨fuel - 1, by omega⟩
  have hcur : (Lexer.mk (pre ++ ((d :: ds) ++ ('*' :: (ks ++ (w :: rest))))) pre.length).current_character = d :=
    charAt_append pre ((d :: ds) ++ ('*' :: (ks ++ (w :: rest)))) 0
  have hsn : step_number f ⟨pre ++ ((d :: ds) ++ ('*' :: (ks ++ (w :: rest)))), pre.length⟩ tokens =
      some (.ok (tokens ++ [⟨.Int, String.mk (d :: ds)⟩],
        ⟨pre ++ ((d :: ds) ++ ('*' :: (ks ++ (w :: rest)))), pre.length + ds.length + 1⟩)) := by
    rw [step_number, if_pos (by rw [hcur]; exact hd)]
    rw [Lexer.match_number, hcur]
    rw [matchNumberGo_run ds pre d ('*' :: (ks ++ (w :: rest))) false
      (String.mk [d]) f hds (by rw [charAt_cons_zero]; decide)
      (by rw [charAt_cons_zero]; decide) (by omega)]
    rw [mk_append_mk]
    simp
  rw [tokenizeGo_succ _ _ _ (by rw [hcur]; exact digit_ne_nul d hd)]
  rw [hsn]
  simp only [lexBind_ok]
  have hcur2 : (Lexer.mk (pre ++ ((d :: ds) ++ ('*' :: (ks ++ (w :: rest))))) (pre.length + ds.length + 1)).current_character = '*' := by
    have e : pre ++ ((d :: ds) ++ ('*' :: (ks ++ (w :: rest)))) =
        (pre ++ (d :: ds)) ++ ('*' :: (ks ++ (w :: rest))) := by
      simp [List.append_assoc]
    have e2 : pre.length + ds.length + 1 = (pre ++ (d :: ds)).length := by
      simp
      omega
    show charAt (pre ++ ((d :: ds) ++ ('*' :: (ks ++ (w :: rest)))))
      (pre.length + ds.length + 1) = '*'
    rw [e, e2]
    exact charAt_append (pre ++ (d :: ds)) ('*' :: (ks ++ (w :: rest))) 0
  rw [step_plus_no _ _ (by rw [hcur2]; decide)]
  rw [step_multiply_yes _ _ hcur2]
  rw [step_string_skip _ _ _ (by rw [hcur2]; decide)]
  simp only [lexBind_ok]
  have hre : (Lexer.mk (pre ++ ((d :: ds) ++ ('*' :: (ks ++ (w :: rest))))) (pre.length + ds.length + 1)) =
      Lexer.mk ((pre ++ (d :: ds)) ++ (('*' :: ks) ++ (w :: rest)))
        ((pre ++ (d :: ds)).length) := by
    rw [show pre ++ ((d :: ds) ++ ('*' :: (ks ++ (w :: rest)))) =
        (pre ++ (d :: ds)) ++ (('*' :: ks) ++ (w :: rest)) from by
      simp [List.append_assoc]]
    rw [show pre.length + ds.length + 1 = (pre ++ (d :: ds)).length from by
      simp <;> omega]
  rw [hre]
  have hcur3 : (Lexer.mk ((pre ++ (d :: ds)) ++ (('*' :: ks) ++ (w :: rest))) ((pre ++ (d :: ds)).length)).current_character = '*' :=
    charAt_append (pre ++ (d :: ds)) (('*' :: ks) ++ (w :: rest)) 0
  have hsk : step_keyword f
      ⟨(pre ++ (d :: ds)) ++ (('*' :: ks) ++ (w :: rest)), (pre ++ (d :: ds)).length⟩
      ((tokens ++ [⟨.Int, String.mk (d :: ds)⟩]) ++ [⟨.Multiply, String.mk []⟩]) =
      some (.ok (((tokens ++ [⟨.Int, String.mk (d :: ds)⟩]) ++ [⟨.Multiply, String.mk []⟩]) ++
        [⟨.Keyword, String.mk ('*' :: ks)⟩],
        ⟨(pre ++ (d :: ds)) ++ (('*' :: ks) ++ (w :: rest)),
          (pre ++ (d :: ds)).length + ks.length⟩)) := by
    rw [step_keyword, if_pos]
    · rw [Lexer.match_keyword, hcur3]
      rw [matchKeywordGo_run ks (pre ++ (d :: ds)) '*' w rest (String.mk ['*']) f
        hks hw (by omega)]
      rw [mk_append_mk]
      simp
    · rw [hcur3]
      exact ⟨⟨by decide, by decide, by decide⟩, by decide⟩
  rw [hsk]
  simp only [lexBind_ok]
  exact tokenizeGo_congr_all _ _ _ _ _ _ _ _ (by omega)
    (by simp [List.append_assoc]) (by simp <;> omega) (by simp)

/-- A '"' immediately after a completed numeric literal is examined by
the '"' branch of the same iteration and opens a string literal
normally. -/
lemma tokenize_step_number_string (fuel : Nat) (pre rest : List Char) (d : Char)
    (ds body : List Char) (tokens : List Token)
    (hd : is_numeric d = true) (hds : ∀ x ∈ ds, is_numeric x = true)
    (hb : ∀ x ∈ body, is_ascii x = true ∧ x ≠ '"')
    (hf : ds.length + body.length + 4 ≤ fuel) :
    tokenizeGo fuel
      ⟨pre ++ ((d :: ds) ++ ('"' :: (body ++ ('"' :: rest)))), pre.length⟩ tokens =
      tokenizeGo (fuel - 1)
        ⟨pre ++ ((d :: ds) ++ ('"' :: (body ++ ('"' :: rest)))),
          pre.length + ds.length + body.length + 3⟩
        (tokens ++ [⟨.Int, String.mk (d :: ds)⟩, ⟨.String, String.mk body⟩]) := by
  obtain ⟨f, rfl⟩ : ∃ f, fuel = f + 1 := ⟨fuel - 1, by omega⟩
  have hcur : (Lexer.mk (pre ++ ((d :: ds) ++ ('"' :: (body ++ ('"' :: rest))))) pre.length).current_character = d :=
    charAt_append pre ((d :: ds) ++ ('"' :: (body ++ ('"' :: rest)))) 0
  have hsn : step_number f ⟨pre ++ ((d :: ds) ++ ('"' :: (body ++ ('"' :: rest)))), pre.length⟩ tokens =
      some (.ok (tokens ++ [⟨.Int, String.mk (d :: ds)⟩],
        ⟨pre ++ ((d :: ds) ++ ('"' :: (body ++ ('"' :: rest)))),
          pre.length + ds.length + 1⟩)) := by
    rw [step_number, if_pos (by rw [hcur]; exact hd)]
    rw [Lexer.match_number, hcur]
    rw [matchNumberGo_run ds pre d ('"' :: (body ++ ('"' :: rest))) false
      (String.mk [d]) f hds (by rw [charAt_cons_zero]; decide)
      (by rw [charAt_cons_zero]; decide) (by omega)]
    rw [mk_append_mk]
    simp
  rw [tokenizeGo_succ _ _ _ (by rw [hcur]; exact digit_ne_nul d hd)]
  rw [hsn]
  simp only [lexBind_ok]
  have hre : (Lexer.mk (pre ++ ((d :: ds) ++ ('"' :: (body ++ ('"' :: rest))))) (pre.length + ds.length + 1)) =
      Lexer.mk ((pre ++ (d :: ds)) ++ (('"' :: body) ++ ('"' :: rest)))
        ((pre ++ (d :: ds)).length) := by
    rw [show pre ++ ((d :: ds) ++ ('"' :: (body ++ ('"' :: rest)))) =
        (pre ++ (d :: ds)) ++ (('"' :: body) ++ ('"' :: rest)) from by
      simp [List.append_assoc]]
    rw [show pre.length + ds.length + 1 = (pre ++ (d :: ds)).length from by
      simp <;> omega]
  rw [hre]
  have hcur2 : (Lexer.mk ((pre ++ (d :: ds)) ++ (('"' :: body) ++ ('"' :: rest))) ((pre ++ (d :: ds)).length)).current_character = '"' :=
    charAt_append (pre ++ (d :: ds)) (('"' :: body) ++ ('"' :: rest)) 0
  rw [step_plus_no _ _ (by rw [hcur2]; decide)]
  rw [step_multiply_no _ _ (by rw [hcur2]; decide)]
  have hss : step_string f
      ⟨(pre ++ (d :: ds)) ++ (('"' :: body) ++ ('"' :: rest)), (pre ++ (d :: ds)).length⟩
      (tokens ++ [⟨.Int, String.mk (d :: ds)⟩]) =
      some (.ok ((tokens ++ [⟨.Int, String.mk (d :: ds)⟩]) ++ [⟨.String, String.mk body⟩],
        ⟨(pre ++ (d :: ds)) ++ (('"' :: body) ++ ('"' :: rest)),
          (pre ++ (d :: ds)).length + body.length + 1⟩)) := by
    rw [step_string, if_pos hcur2]
    rw [Lexer.match_string]
    rw [matchStringGo_run body (pre ++ (d :: ds)) '"' rest (String.mk []) f hb
      (by omega)]
    rw [mk_append_mk]
    simp
  rw [hss]
  simp only [lexBind_ok]
  have hcur3 : (Lexer.mk ((pre ++ (d :: ds)) ++ (('"' :: body) ++ ('"' :: rest))) ((pre ++ (d :: ds)).length + body.length + 1)).current_character = '"' := by
    have e : (pre ++ (d :: ds)) ++ (('"' :: body) ++ ('"' :: rest)) =
        ((pre ++ (d :: ds)) ++ ('"' :: body)) ++ ('"' :: rest) := by
      simp [List.append_assoc]
    have e2 : (pre ++ (d :: ds)).length + body.length + 1 =
        ((pre ++ (d :: ds)) ++ ('"' :: body)).length := by
      simp
      omega
    show charAt ((pre ++ (d :: ds)) ++ (('"' :: body) ++ ('"' :: rest)))
      ((pre ++ (d :: ds)).length + body.length + 1) = '"'
    rw [e, e2]
    exact charAt_append ((pre ++ (d :: ds)) ++ ('"' :: body)) ('"' :: rest) 0
  rw [step_keyword_skip_of _ _ _ (Or.inr (Or.inl hcur3))]
  simp only [lexBind_ok]
  exact tokenizeGo_congr_all _ _ _ _ _ _ _ _ (by omega)
    (by simp [List.append_assoc]) (by simp <;> omega) (by simp)

/-- Any character immediately after a completed numeric literal that is
not '+', '*', '"', a digit, a dot or whitespace falls into the keyword
branch of the same iteration and starts a keyword normally. -/
lemma tokenize_step_number_keyword (fuel : Nat) (pre rest : List Char) (d : Char)
    (ds : List Char) (k : Char) (ks : List Char) (w : Char) (tokens : List Token)
    (hd : is_numeric d = true) (hds : ∀ x ∈ ds, is_numeric x = true)
    (hk0 : k ≠ '\x00') (hk1 : is_numeric k = false) (hk2 : k ≠ '+')
    (hk3 : k ≠ '*') (hk4 : k ≠ '"') (hk5 : is_whitespace k = false)
    (hk6 : k ≠ '.')
    (hks : ∀ x ∈ ks, is_whitespace x = false) (hw : is_whitespace w = true)
    (hf : ds.length + ks.length + 4 ≤ fuel) :
    tokenizeGo fuel
      ⟨pre ++ ((d :: ds) ++ (k :: (ks ++ (w :: rest)))), pre.length⟩ tokens =
      tokenizeGo (fuel - 1)
        ⟨pre ++ ((d :: ds) ++ (k :: (ks ++ (w :: rest)))),
          pre.length + ds.length + ks.length + 2⟩
        (tokens ++ [⟨.Int, String.mk (d :: ds)⟩,
          ⟨.Keyword, String.mk (k :: ks)⟩]) := by
  obtain ⟨f, rfl⟩ : ∃ f, fuel = f + 1 := ⟨fuel - 1, by omega⟩
  have hcur : (Lexer.mk (pre ++ ((d :: ds) ++ (k :: (ks ++ (w :: rest))))) pre.length).current_character = d :=
    charAt_append pre ((d :: ds) ++ (k :: (ks ++ (w :: rest)))) 0
  have hsn : step_number f ⟨pre ++ ((d :: ds) ++ (k :: (ks ++ (w :: rest)))), pre.length⟩ tokens =
      some (.ok (tokens ++ [⟨.Int, String.mk (d :: ds)⟩],
        ⟨pre ++ ((d :: ds) ++ (k :: (ks ++ (w :: rest)))), pre.length + ds.length + 1⟩)) := by
    rw [step_number, if_pos (by rw [hcur]; exact hd)]
    rw [Lexer.match_number, hcur]
    rw [matchNumberGo_run ds pre d (k :: (ks ++ (w :: rest))) false
      (String.mk [d]) f hds (by rw [charAt_cons_zero]; exact hk1)
      (by rw [charAt_cons_zero]; exact hk6) (by omega)]
    rw [mk_append_mk]
    simp
  rw [tokenizeGo_succ _ _ _ (by rw [hcur]; exact digit_ne_nul d hd)]
  rw [hsn]
  simp only [lexBind_ok]
  have hre : (Lexer.mk (pre ++ ((d :: ds) ++ (k :: (ks ++ (w :: rest))))) (pre.length + ds.length + 1)) =
      Lexer.mk ((pre ++ (d :: ds)) ++ ((k :: ks) ++ (w :: rest)))
        ((pre ++ (d :: ds)).length) := by
    rw [show pre ++ ((d :: ds) ++ (k :: (ks ++ (w :: rest)))) =
        (pre ++ (d :: ds)) ++ ((k :: ks) ++ (w :: rest)) from by
      simp [List.append_assoc]]
    rw [show pre.length + ds.length + 1 = (pre ++ (d :: ds)).length from by
      simp <;> omega]
  rw [hre]
  have hcur2 : (Lexer.mk ((pre ++ (d :: ds)) ++ ((k :: ks) ++ (w :: rest))) ((pre ++ (d :: ds)).length)).current_character = k :=
    charAt_append (pre ++ (d :: ds)) ((k :: ks) ++ (w :: rest)) 0
  rw [step_plus_no _ _ (by rw [hcur2]; exact hk2)]
  rw [step_multiply_no _ _ (by rw [hcur2]; exact hk3)]
  rw [step_string_skip _ _ _ (by rw [hcur2]; exact hk4)]
  simp only [lexBind_ok]
  have hsk : step_keyword f
      ⟨(pre ++ (d :: ds)) ++ ((k :: ks) ++ (w :: rest)), (pre ++ (d :: ds)).length⟩
      (tokens ++ [⟨.Int, String.mk (d :: ds)⟩]) =
      some (.ok ((tokens ++ [⟨.Int, String.mk (d :: ds)⟩]) ++
        [⟨.Keyword, String.mk (k :: ks)⟩],
        ⟨(pre ++ (d :: ds)) ++ ((k :: ks) ++ (w :: rest)),
          (pre ++ (d :: ds)).length + ks.length⟩)) := by
    rw [step_keyword, if_pos]
    · rw [Lexer.match_keyword, hcur2]
      rw [matchKeywordGo_run ks (pre ++ (d :: ds)) k w rest (String.mk [k]) f
        hks hw (by omega)]
      rw [mk_append_mk]
      simp
    · rw [hcur2]
      exact ⟨⟨hk2, hk4, by rw [hk1]; exact Bool.false_ne_true⟩,
        by rw [hk5]; exact Bool.false_ne_true⟩
  rw [hsk]
  simp only [lexBind_ok]
  exact tokenizeGo_congr_all _ _ _ _ _ _ _ _ (by omega)
    (by simp [List.append_assoc]) (by simp <;> omega) (by simp)

/-- A '+' immediately after a string literal's closing quote is
classified normally by the next iteration and produces its Plus token
(the string's iteration consumed exactly through the closing quote). -/
lemma tokenize_step_string_plus (fuel : Nat) (pre rest body : List Char)
    (tokens : List Token) (hb : ∀ x ∈ body, is_ascii x = true ∧ x ≠ '"')
    (hf : body.length + 4 ≤ fuel) :
    tokenizeGo fuel
      ⟨pre ++ (('"' :: body) ++ ('"' :: ('+' :: rest))), pre.length⟩ tokens =
      tokenizeGo (fuel - 2)
        ⟨pre ++ (('"' :: body) ++ ('"' :: ('+' :: rest))),
          pre.length + body.length + 3⟩
        (tokens ++ [⟨.String, String.mk body⟩, ⟨.Plus, String.mk []⟩]) := by
  rw [tokenize_step_string fuel pre ('+' :: rest) body tokens hb (by omega)]
  rw [tokenizeGo_congr (fuel - 1) (fuel - 1) _
    ((pre ++ ('"' :: (body ++ ['"']))) ++ ('+' :: rest))
    _ ((pre ++ ('"' :: (body ++ ['"'])))).length _ rfl (by simp) (by simp <;> omega)]
  rw [tokenize_step_plus (fuel - 1) (pre ++ ('"' :: (body ++ ['"']))) rest _
    (by omega)]
  exact tokenizeGo_congr_all _ _ _ _ _ _ _ _ (by omega)
    (by simp [List.append_assoc]) (by simp <;> omega) (by simp)

/- ------------------------------------------------------------------ -/
/- Running a whole line                                                -/
/- ------------------------------------------------------------------ -/

lemma run_line_eq (fuel : Nat) (line : List Char) (hne : line ≠ [])
    (tokens : List Token)
    (htok : tokenizeGo fuel ⟨line, 0⟩ [] = some (.ok tokens)) :
    run_line fuel line = Runner.startGo fuel tokens := by
  have h1 : Lexer.new line = some ⟨line, 0⟩ := by
    simp [Lexer.new, hne]
  simp only [run_line, h1, Lexer.tokenize, htok]

lemma startGo_int_plus_int (s0 s1 s2 : String) (f : Nat) (hf : 2 ≤ f) :
    Runner.startGo f [⟨.Int, s1⟩, ⟨.Plus, s0⟩, ⟨.Int, s2⟩] =
      some (.panicked []) := by
  obtain ⟨g, rfl⟩ : ∃ g, f = g + 2 := ⟨f - 2, by omega⟩
  simp [Runner.startGo, Runner.add]

lemma startGo_string_puts (sv kv : String) (f : Nat) (hkv : kv = "puts")
    (hf : 2 ≤ f) :
    Runner.startGo f [⟨.String, sv⟩, ⟨.Keyword, kv⟩] = some (.ok [sv] ()) := by
  subst hkv
  obtain ⟨g, rfl⟩ : ∃ g, f = g + 2 := ⟨f - 2, by omega⟩
  simp [Runner.startGo, Runner.handle_keyword, Runner.puts, prepend_out]

lemma startGo_lone_plus (s0 : String) (f : Nat) (hf : 1 ≤ f) :
    Runner.startGo f [⟨.Plus, s0⟩] = some (.panicked []) := by
  obtain ⟨g, rfl⟩ : ∃ g, f = g + 1 := ⟨f - 1, by omega⟩
  simp [Runner.startGo, Runner.add]

/- ------------------------------------------------------------------ -/
/- The unterminated string literal                                     -/
/- ------------------------------------------------------------------ -/

/-- On the line `"x` (opening quote never closed, newline included) the
string loop never finds a terminator: tokenize returns for no fuel. -/
lemma tokenize_unterminated_none (fuel : Nat) :
    tokenizeGo fuel ⟨['"', 'x', '\n'], 0⟩ [] = none := by
  cases fuel with
  | zero => rfl
  | succ f =>
    rw [tokenizeGo_succ f _ _ (by decide)]
    rw [step_number_skip _ _ _ (by decide)]
    simp only [lexBind_ok]
    have hms : Lexer.match_string f ⟨['"', 'x', '\n'], 0⟩ = none := by
      rw [Lexer.match_string]
      apply matchStringGo_diverges
      intro j hj
      have hj0 : 0 < j := hj
      match j, hj0 with
      | 1, _ => exact ⟨by decide, by decide⟩
      | 2, _ => exact ⟨by decide, by decide⟩
      | (n + 3), _ =>
        have hp : charAt ['"', 'x', '\n'] (n + 3) = '\x00' :=
          charAt_past _ _ (by simp)
        rw [hp]
        exact ⟨by decide, by decide⟩
    have hss : step_string f ⟨['"', 'x', '\n'], 0⟩
        (step_multiply ⟨['"', 'x', '\n'], 0⟩
          (step_plus ⟨['"', 'x', '\n'], 0⟩ [])) = none := by
      rw [step_string, if_pos (by decide), hms]
    rw [hss]
    rfl

/- ------------------------------------------------------------------ -/
/- Kind of a numeric token versus the dot seen while matching it       -/
/- ------------------------------------------------------------------ -/

lemma data_push (a : String) (c : Char) : (a.push c).data = a.data ++ [c] := by
  cases a
  rfl

lemma data_mk (l : List Char) : (String.mk l).data = l := rfl

/-- Invariant of the number loop: provided the dot flag agrees with the
accumulated text so far, a returned token is Float-kind exactly when its
payload contains a dot (and Int-kind exactly when it does not). -/
lemma matchNumberGo_dot_invariant (fuel : Nat) :
    ∀ (l : Lexer) (hd : Bool) (acc : String) (t : Token) (l2 : Lexer),
    (('.' ∈ acc.data) ↔ hd = true) →
    matchNumberGo fuel l hd acc = some (.ok (t, l2)) →
    ((t.token_type = .Float ↔ '.' ∈ t.token_value.data) ∧
     (t.token_type = .Int ↔ '.' ∉ t.token_value.data)) := by
  induction fuel with
  | zero =>
    intro l hd acc t l2 _ h
    exact absurd h (by simp [matchNumberGo])
  | succ f ih =>
    intro l hd acc t l2 hinv h
    simp only [matchNumberGo] at h
    by_cases hc : is_numeric (l.peek 1) = true ∨ l.peek 1 = '.'
    · rw [if_pos hc] at h
      by_cases hdot : hd = true ∧ l.advance.current_character = '.'
      · rw [if_pos hdot] at h
        exact absurd h (by simp)
      · rw [if_neg hdot] at h
        refine ih l.advance _ _ t l2 ?_ h
        by_cases hcdot : l.advance.current_character = '.'
        · simp [hcdot, data_push]
        · simp [hcdot, data_push]
          constructor
          · rintro (hm | hm)
            · exact hinv.mp hm
            · exact absurd hm.symm hcdot
          · intro hm
            exact Or.inl (hinv.mpr hm)
    · rw [if_neg hc] at h
      injection h with h1
      injection h1 with h2
      have ht : (⟨if hd = true then .Float else .Int, acc⟩ : Token) = t :=
        congrArg Prod.fst h2
      rw [← ht]
      cases hd with
      | true =>
        have hmem : '.' ∈ acc.data := hinv.mpr rfl
        constructor
        · simp [hmem]
        · simp [hmem]
      | false =>
        have hmem : '.' ∉ acc.data := fun hm => absurd (hinv.mp hm) (by decide)
        constructor
        · simp [hmem]
        · simp [hmem]

/- ------------------------------------------------------------------ -/
/- Small facts about Runner.add                                        -/
/- ------------------------------------------------------------------ -/

/-- Runner::add when the second front token is a Plus: the recursive
reduction's result becomes the real second operand. -/
lemma add_cons_plus (first pl : Token) (rest1 : List Token) (out : List String)
    (t : Token) (rest2 : List Token) (hp : pl.token_type = .Plus)
    (hrec : Runner.add rest1 = .ok out (t, rest2)) :
    Runner.add (first :: pl :: rest1) = add_finish first t rest2 out := by
  simp only [Runner.add]
  rw [if_pos hp, hrec]

/-- The success path of add_finish: equal kinds, two successful usize
parses, and a sum below the usize bound. -/
lemma add_finish_ok (first second : Token) (rest : List Token)
    (out : List String) (a b : Nat)
    (heq : first.token_type = second.token_type)
    (hpa : parse_usize first.token_value = some a)
    (hpb : parse_usize second.token_value = some b)
    (hab : a + b < 2 ^ 64) :
    add_finish first second rest out =
      .ok (out ++ [Nat.repr (a + b)])
        (⟨first.token_type, Nat.repr (a + b)⟩, rest) := by
  rw [add_finish, if_neg (fun hne => hne heq), hpa, hpb]
  show (if a + b < 2 ^ 64 then _ else _) = _
  rw [if_pos hab]

/- ================================================================== -/
/- Claim theorems                                                      -/
/- ================================================================== -/

/-- C1, counterexample.  On the input line "3 + 4" (trailing newline
included) tokenization does yield [Int "3", Plus, Int "4"], but running
the line does not print the sum 7: the evaluator pops Int "4" from the
back and drops it, and the addition reduction then pops from an empty
deque — an unchecked panic with no output at all, refuting the claim
that the decimal sum is printed. -/
theorem c1_counterexample :
    tokenizeGo 16 ⟨"3 + 4\n".toList, 0⟩ [] =
      some (.ok [⟨.Int, "3"⟩, ⟨.Plus, ""⟩, ⟨.Int, "4"⟩]) ∧
    run_line 16 "3 + 4\n".toList = some (.panicked []) :=
  ⟨by decide, by decide⟩

/-- C1, amended.  For every input line of the form "<int> + <int>" with
spaces around the plus, tokenize yields exactly the three tokens
[Integer, Plus, Integer] in source order; but evaluating that token
stack does not print the sum: the second integer is popped from the back
and discarded, and the addition reduction then pops from an empty stack,
an unchecked fatal abort that produces no output. -/
theorem c1_amended_infix_addition (d e : Char) (ds es : List Char) (fuel : Nat)
    (hd : is_numeric d = true) (hds : ∀ x ∈ ds, is_numeric x = true)
    (he : is_numeric e = true) (hes : ∀ x ∈ es, is_numeric x = true)
    (hf : ds.length + es.length + 8 ≤ fuel) :
    tokenizeGo fuel ⟨d :: (ds ++ (' ' :: '+' :: ' ' :: e :: (es ++ ['\n']))), 0⟩ [] =
      some (.ok [⟨.Int, String.mk (d :: ds)⟩, ⟨.Plus, String.mk []⟩,
        ⟨.Int, String.mk (e :: es)⟩]) ∧
    run_line fuel (d :: (ds ++ (' ' :: '+' :: ' ' :: e :: (es ++ ['\n'])))) =
      some (.panicked []) := by
  have ht := tokenize_int_plus_int d e ds es fuel hd hds he hes hf
  refine ⟨ht, ?_⟩
  rw [run_line_eq fuel _ (by simp) _ ht]
  exact startGo_int_plus_int (String.mk []) (String.mk (d :: ds))
    (String.mk (e :: es)) fuel (by omega)

/-- C1, witness for the amended theorem at the concrete line "3 + 4". -/
theorem c1_witness :
    tokenizeGo 16 ⟨'3' :: ([] ++ (' ' :: '+' :: ' ' :: '4' :: ([] ++ ['\n']))), 0⟩ [] =
      some (.ok [⟨.Int, String.mk ['3']⟩, ⟨.Plus, String.mk []⟩,
        ⟨.Int, String.mk ['4']⟩]) ∧
    run_line 16 ('3' :: ([] ++ (' ' :: '+' :: ' ' :: '4' :: ([] ++ ['\n'])))) =
      some (.panicked []) :=
  c1_amended_infix_addition '3' '4' [] [] 16 (by decide) (by simp) (by decide)
    (by simp) (by decide)

/-- C2, counterexample.  On the line consisting of an opening quote, an
'x' and the trailing newline — an unterminated string literal — the
string-matching loop never meets a closing quote or a non-ASCII
character ('\x00' past the end is ASCII), so tokenize never returns:
the claim that tokenize terminates on an unterminated string literal is
false. -/
theorem c2_counterexample : ¬ tokenize_halts ['"', 'x', '\n'] := by
  rintro ⟨fuel, res, h⟩
  rw [tokenize_unterminated_none fuel] at h
  exact Option.noConfusion h

/-- C2, amended.  For every input line that ends in a whitespace
character (every line read by get_input ends in the newline) and
contains no '"' character, tokenize terminates and returns a (possibly
empty) token sequence, and the only fatal-reporter invocation it can
make is IllegalCharError "Found an extra dot"; lines with an
unterminated string literal, by contrast, make the scan diverge. -/
theorem c2_amended_termination (src : List Char) (h1 : src ≠ [])
    (h2 : is_whitespace (charAt src (src.length - 1)) = true)
    (h3 : '"' ∉ src) :
    ∃ res, tokenizeGo (src.length + 2) ⟨src, 0⟩ [] = some res ∧
      (∀ n d, res = .fatal n d →
        n = "IllegalCharError" ∧ d = "Found an extra dot") := by
  refine tokenizeGo_total (src.length + 2) ⟨src, 0⟩ [] h2 h3 ?_
  show src.length + 1 - 0 < src.length + 2
  omega

/-- C2, witness for the amended theorem at the concrete line "ab 1.2". -/
theorem c2_witness :
    ∃ res, tokenizeGo (['a', 'b', ' ', '1', '.', '2', '\n'].length + 2)
      ⟨['a', 'b', ' ', '1', '.', '2', '\n'], 0⟩ [] = some res ∧
      (∀ n d, res = .fatal n d →
        n = "IllegalCharError" ∧ d = "Found an extra dot") :=
  c2_amended_termination ['a', 'b', ' ', '1', '.', '2', '\n'] (by decide)
    (by decide) (by decide)

/-- C3, counterexample.  The character immediately following a completed
numeric literal IS classified by the remaining branches of the same scan
iteration: on "3+4" the '+' right after the literal produces a Plus
token; and the character following a string literal's closing quote is
classified normally in the next iteration: on '"ab"+' the '+' right
after the closing quote produces a Plus token.  Both refute the claim
that these characters produce no token. -/
theorem c3_counterexample :
    tokenizeGo 16 ⟨"3+4\n".toList, 0⟩ [] =
      some (.ok [⟨.Int, "3"⟩, ⟨.Plus, ""⟩, ⟨.Int, "4"⟩]) ∧
    tokenizeGo 16 ⟨['"', 'a', 'b', '"', '+', '\n'], 0⟩ [] =
      some (.ok [⟨.String, "ab"⟩, ⟨.Plus, ""⟩]) :=
  ⟨by decide, by decide⟩

/-- C3, amended.  In every scan iteration that matched a numeric
literal, the cursor then rests on the literal's terminator, which the
remaining branches of the SAME iteration still examine, so the
terminator is always classified: whitespace produces no token (part 1);
a '+' produces its Plus token (part 2); a '*' produces its Multiply
token AND — since the keyword guard does not exclude '*' — additionally
starts keyword matching at the '*', yielding a Keyword token beginning
with '*' (part 3); a '"' opens a string literal normally (part 4); any
other non-digit, non-dot, non-whitespace character starts a keyword
normally (part 5).  After a string literal the iteration consumes
exactly through the closing quote, emitting only the String token
(part 6), so the character immediately following the closing quote is
classified by a fresh iteration, e.g. a following '+' produces its Plus
token (part 7).  No character is consumed without classification. -/
theorem c3_amended_terminator_reclassified :
    (∀ (fuel : Nat) (pre rest : List Char) (d : Char) (ds : List Char)
      (c : Char) (tokens : List Token),
      is_numeric d = true → (∀ x ∈ ds, is_numeric x = true) →
      is_whitespace c = true → ds.length + 2 ≤ fuel →
      tokenizeGo fuel ⟨pre ++ ((d :: ds) ++ (c :: rest)), pre.length⟩ tokens =
        tokenizeGo (fuel - 1)
          ⟨pre ++ ((d :: ds) ++ (c :: rest)), pre.length + ds.length + 2⟩
          (tokens ++ [⟨.Int, String.mk (d :: ds)⟩])) ∧
    (∀ (fuel : Nat) (pre rest : List Char) (d : Char) (ds : List Char)
      (tokens : List Token),
      is_numeric d = true → (∀ x ∈ ds, is_numeric x = true) →
      ds.length + 2 ≤ fuel →
      tokenizeGo fuel ⟨pre ++ ((d :: ds) ++ ('+' :: rest)), pre.length⟩ tokens =
        tokenizeGo (fuel - 1)
          ⟨pre ++ ((d :: ds) ++ ('+' :: rest)), pre.length + ds.length + 2⟩
          (tokens ++ [⟨.Int, String.mk (d :: ds)⟩, ⟨.Plus, String.mk []⟩])) ∧
    (∀ (fuel : Nat) (pre rest : List Char) (d : Char) (ds ks : List Char)
      (w : Char) (tokens : List Token),
      is_numeric d = true → (∀ x ∈ ds, is_numeric x = true) →
      (∀ x ∈ ks, is_whitespace x = false) → is_whitespace w = true →
      ds.length + ks.length + 4 ≤ fuel →
      tokenizeGo fuel
        ⟨pre ++ ((d :: ds) ++ ('*' :: (ks ++ (w :: rest)))), pre.length⟩ tokens =
        tokenizeGo (fuel - 1)
          ⟨pre ++ ((d :: ds) ++ ('*' :: (ks ++ (w :: rest)))),
            pre.length + ds.length + ks.length + 2⟩
          (tokens ++ [⟨.Int, String.mk (d :: ds)⟩, ⟨.Multiply, String.mk []⟩,
            ⟨.Keyword, String.mk ('*' :: ks)⟩])) ∧
    (∀ (fuel : Nat) (pre rest : List Char) (d : Char) (ds body : List Char)
      (tokens : List Token),
      is_numeric d = true → (∀ x ∈ ds, is_numeric x = true) →
      (∀ x ∈ body, is_ascii x = true ∧ x ≠ '"') →
      ds.length + body.length + 4 ≤ fuel →
      tokenizeGo fuel
        ⟨pre ++ ((d :: ds) ++ ('"' :: (body ++ ('"' :: rest)))), pre.length⟩ tokens =
        tokenizeGo (fuel - 1)
          ⟨pre ++ ((d :: ds) ++ ('"' :: (body ++ ('"' :: rest)))),
            pre.length + ds.length + body.length + 3⟩
          (tokens ++ [⟨.Int, String.mk (d :: ds)⟩, ⟨.String, String.mk body⟩])) ∧
    (∀ (fuel : Nat) (pre rest : List Char) (d : Char) (ds : List Char)
      (k : Char) (ks : List Char) (w : Char) (tokens : List Token),
      is_numeric d = true → (∀ x ∈ ds, is_numeric x = true) →
      k ≠ '\x00' → is_numeric k = false → k ≠ '+' → k ≠ '*' → k ≠ '"' →
      is_whitespace k = false → k ≠ '.' →
      (∀ x ∈ ks, is_whitespace x = false) → is_whitespace w = true →
      ds.length + ks.length + 4 ≤ fuel →
      tokenizeGo fuel
        ⟨pre ++ ((d :: ds) ++ (k :: (ks ++ (w :: rest)))), pre.length⟩ tokens =
        tokenizeGo (fuel - 1)
          ⟨pre ++ ((d :: ds) ++ (k :: (ks ++ (w :: rest)))),
            pre.length + ds.length + ks.length + 2⟩
          (tokens ++ [⟨.Int, String.mk (d :: ds)⟩,
            ⟨.Keyword, String.mk (k :: ks)⟩])) ∧
    (∀ (fuel : Nat) (pre rest body : List Char) (tokens : List Token),
      (∀ x ∈ body, is_ascii x = true ∧ x ≠ '"') →
      body.length + 2 ≤ fuel →
      tokenizeGo fuel ⟨pre ++ (('"' :: body) ++ ('"' :: rest)), pre.length⟩ tokens =
        tokenizeGo (fuel - 1)
          ⟨pre ++ (('"' :: body) ++ ('"' :: rest)), pre.length + body.length + 2⟩
          (tokens ++ [⟨.String, String.mk body⟩])) ∧
    (∀ (fuel : Nat) (pre rest body : List Char) (tokens : List Token),
      (∀ x ∈ body, is_ascii x = true ∧ x ≠ '"') →
      body.length + 4 ≤ fuel →
      tokenizeGo fuel
        ⟨pre ++ (('"' :: body) ++ ('"' :: ('+' :: rest))), pre.length⟩ tokens =
        tokenizeGo (fuel - 2)
          ⟨pre ++ (('"' :: body) ++ ('"' :: ('+' :: rest))),
            pre.length + body.length + 3⟩
          (tokens ++ [⟨.String, String.mk body⟩, ⟨.Plus, String.mk []⟩])) :=
  ⟨fun fuel pre rest d ds c tokens hd hds hc hf =>
      tokenize_step_number fuel pre rest d ds c tokens hd hds hc hf,
    fun fuel pre rest d ds tokens hd hds hf =>
      tokenize_step_number_plus fuel pre rest d ds tokens hd hds hf,
    fun fuel pre rest d ds ks w tokens hd hds hks hw hf =>
      tokenize_step_number_star fuel pre rest d ds ks w tokens hd hds hks hw hf,
    fun fuel pre rest d ds body tokens hd hds hb hf =>
      tokenize_step_number_string fuel pre rest d ds body tokens hd hds hb hf,
    fun fuel pre rest d ds k ks w tokens hd hds hk0 hk1 hk2 hk3 hk4 hk5 hk6 hks hw hf =>
      tokenize_step_number_keyword fuel pre rest d ds k ks w tokens hd hds hk0
        hk1 hk2 hk3 hk4 hk5 hk6 hks hw hf,
    fun fuel pre rest body tokens hb hf =>
      tokenize_step_string fuel pre rest body tokens hb hf,
    fun fuel pre rest body tokens hb hf =>
      tokenize_step_string_plus fuel pre rest body tokens hb hf⟩

/-- C3, witness for the amended theorem, one concrete instance per part:
"3 4" (whitespace terminator), "3+4" ('+' after the literal), "3*"
(Multiply AND Keyword "*"), '3"a"' (string opened after the literal),
"3x" (keyword after the literal), '"a"' (string iteration stops on the
closing quote), and '"a"+' ('+' right after the closing quote). -/
theorem c3_witness :
    (tokenizeGo 8 ⟨[] ++ (('3' :: []) ++ (' ' :: ['4', '\n'])), ([] : List Char).length⟩ [] =
      tokenizeGo (8 - 1) ⟨[] ++ (('3' :: []) ++ (' ' :: ['4', '\n'])),
        ([] : List Char).length + ([] : List Char).length + 2⟩
        ([] ++ [⟨.Int, String.mk ['3']⟩])) ∧
    (tokenizeGo 8 ⟨[] ++ (('3' :: []) ++ ('+' :: ['4', '\n'])), ([] : List Char).length⟩ [] =
      tokenizeGo (8 - 1) ⟨[] ++ (('3' :: []) ++ ('+' :: ['4', '\n'])),
        ([] : List Char).length + ([] : List Char).length + 2⟩
        ([] ++ [⟨.Int, String.mk ['3']⟩, ⟨.Plus, String.mk []⟩])) ∧
    (tokenizeGo 8 ⟨[] ++ (('3' :: []) ++ ('*' :: ([] ++ ('\n' :: [])))), ([] : List Char).length⟩ [] =
      tokenizeGo (8 - 1) ⟨[] ++ (('3' :: []) ++ ('*' :: ([] ++ ('\n' :: [])))),
        ([] : List Char).length + ([] : List Char).length + ([] : List Char).length + 2⟩
        ([] ++ [⟨.Int, String.mk ['3']⟩, ⟨.Multiply, String.mk []⟩,
          ⟨.Keyword, String.mk ('*' :: [])⟩])) ∧
    (tokenizeGo 10 ⟨[] ++ (('3' :: []) ++ ('"' :: (['a'] ++ ('"' :: ['\n'])))), ([] : List Char).length⟩ [] =
      tokenizeGo (10 - 1) ⟨[] ++ (('3' :: []) ++ ('"' :: (['a'] ++ ('"' :: ['\n'])))),
        ([] : List Char).length + ([] : List Char).length + (['a'] : List Char).length + 3⟩
        ([] ++ [⟨.Int, String.mk ['3']⟩, ⟨.String, String.mk ['a']⟩])) ∧
    (tokenizeGo 8 ⟨[] ++ (('3' :: []) ++ ('x' :: ([] ++ ('\n' :: [])))), ([] : List Char).length⟩ [] =
      tokenizeGo (8 - 1) ⟨[] ++ (('3' :: []) ++ ('x' :: ([] ++ ('\n' :: [])))),
        ([] : List Char).length + ([] : List Char).length + ([] : List Char).length + 2⟩
        ([] ++ [⟨.Int, String.mk ['3']⟩, ⟨.Keyword, String.mk ('x' :: [])⟩])) ∧
    (tokenizeGo 8 ⟨[] ++ (('"' :: ['a']) ++ ('"' :: ['\n'])), ([] : List Char).length⟩ [] =
      tokenizeGo (8 - 1) ⟨[] ++ (('"' :: ['a']) ++ ('"' :: ['\n'])),
        ([] : List Char).length + (['a'] : List Char).length + 2⟩
        ([] ++ [⟨.String, String.mk ['a']⟩])) ∧
    (tokenizeGo 8 ⟨[] ++ (('"' :: ['a']) ++ ('"' :: ('+' :: ['\n']))), ([] : List Char).length⟩ [] =
      tokenizeGo (8 - 2) ⟨[] ++ (('"' :: ['a']) ++ ('"' :: ('+' :: ['\n']))),
        ([] : List Char).length + (['a'] : List Char).length + 3⟩
        ([] ++ [⟨.String, String.mk ['a']⟩, ⟨.Plus, String.mk []⟩])) :=
  ⟨c3_amended_terminator_reclassified.1 8 [] ['4', '\n'] '3' [] ' ' []
      (by decide) (by simp) (by decide) (by decide),
    c3_amended_terminator_reclassified.2.1 8 [] ['4', '\n'] '3' [] []
      (by decide) (by simp) (by decide),
    c3_amended_terminator_reclassified.2.2.1 8 [] [] '3' [] [] '\n' []
      (by decide) (by simp) (by simp) (by decide) (by decide),
    c3_amended_terminator_reclassified.2.2.2.1 10 [] ['\n'] '3' [] ['a'] []
      (by decide) (by simp) (by decide) (by decide),
    c3_amended_terminator_reclassified.2.2.2.2.1 8 [] [] '3' [] 'x' [] '\n' []
      (by decide) (by simp) (by decide) (by decide) (by decide) (by decide)
      (by decide) (by decide) (by decide) (by simp) (by decide) (by decide),
    c3_amended_terminator_reclassified.2.2.2.2.2.1 8 [] ['\n'] ['a'] []
      (by decide) (by decide),
    c3_amended_terminator_reclassified.2.2.2.2.2.2 8 [] ['\n'] ['a'] []
      (by decide) (by decide)⟩

/-- C4, counterexample.  Both payloads parse as non-negative integers,
yet the reduction prints nothing and fails with Mismatched types,
because the claim omits the type-equality proviso: the kinds Int and
Float differ. -/
theorem c4_counterexample :
    Runner.add [⟨.Int, "3"⟩, ⟨.Float, "4"⟩] =
      .fatal [] "Mismatched types" "Cannot add on 2 values of different types" ∧
    parse_usize "3" = some 3 ∧ parse_usize "4" = some 4 :=
  ⟨by decide, by decide, by decide⟩

/-- C4, amended.  The addition reduction pops two tokens from the front;
if the second is a Plus token it first recursively reduces to obtain the
real second operand; then, provided the two operands have EQUAL kinds,
both payloads parse as usize values, and the sum does not overflow the
64-bit usize range, it prints their sum on its own line and returns a
token with the first operand's kind and the sum's decimal text. -/
theorem c4_amended_addition_reduction :
    (∀ (first second : Token) (rest : List Token) (a b : Nat),
      second.token_type ≠ .Plus → first.token_type = second.token_type →
      parse_usize first.token_value = some a →
      parse_usize second.token_value = some b →
      a + b < 2 ^ 64 →
      Runner.add (first :: second :: rest) =
        .ok [Nat.repr (a + b)] (⟨first.token_type, Nat.repr (a + b)⟩, rest)) ∧
    (∀ (first pl : Token) (rest1 : List Token) (out : List String) (t : Token)
      (rest2 : List Token) (a b : Nat),
      pl.token_type = .Plus → Runner.add rest1 = .ok out (t, rest2) →
      first.token_type = t.token_type →
      parse_usize first.token_value = some a →
      parse_usize t.token_value = some b →
      a + b < 2 ^ 64 →
      Runner.add (first :: pl :: rest1) =
        .ok (out ++ [Nat.repr (a + b)]) (⟨first.token_type, Nat.repr (a + b)⟩, rest2)) := by
  constructor
  · intro first second rest a b hns heq hpa hpb hab
    simp only [Runner.add]
    rw [if_neg hns, add_finish_ok first second rest [] a b heq hpa hpb hab]
    rfl
  · intro first pl rest1 out t rest2 a b hp hrec heq hpa hpb hab
    rw [add_cons_plus first pl rest1 out t rest2 hp hrec]
    rw [add_finish_ok first t rest2 out a b heq hpa hpb hab]

/-- C4, witness for the amended theorem: 3 + 4 prints "7" and returns an
Int token "7"; and with a recursively resolved second operand,
1 + (2 + 3) prints "5" then "6". -/
theorem c4_witness :
    Runner.add [⟨.Int, "3"⟩, ⟨.Int, "4"⟩] =
      .ok [Nat.repr (3 + 4)] (⟨TokenType.Int, Nat.repr (3 + 4)⟩, []) ∧
    Runner.add [⟨.Int, "1"⟩, ⟨.Plus, ""⟩, ⟨.Int, "2"⟩, ⟨.Int, "3"⟩] =
      .ok (["5"] ++ [Nat.repr (1 + 5)]) (⟨TokenType.Int, Nat.repr (1 + 5)⟩, []) :=
  ⟨c4_amended_addition_reduction.1 ⟨.Int, "3"⟩ ⟨.Int, "4"⟩ [] 3 4 (by decide)
      (by decide) (by decide) (by decide) (by decide),
    c4_amended_addition_reduction.2 ⟨.Int, "1"⟩ ⟨.Plus, ""⟩
      [⟨.Int, "2"⟩, ⟨.Int, "3"⟩] ["5"] ⟨.Int, "5"⟩ [] 1 5 (by decide) (by decide)
      (by decide) (by decide) (by decide) (by decide)⟩

/-- C5.  If the two operands of an addition reduction have different
token kinds — whether the second operand is taken directly from the
stack or obtained by recursive resolution of a Plus token — the
reduction fails fatally with the Mismatched types error and does not
print this reduction's sum (in the direct case nothing at all is
printed). -/
theorem c5_mismatched_types :
    (∀ (first second : Token) (rest : List Token),
      second.token_type ≠ .Plus → first.token_type ≠ second.token_type →
      Runner.add (first :: second :: rest) =
        .fatal [] "Mismatched types" "Cannot add on 2 values of different types") ∧
    (∀ (first pl : Token) (rest1 : List Token) (out : List String) (t : Token)
      (rest2 : List Token),
      pl.token_type = .Plus → Runner.add rest1 = .ok out (t, rest2) →
      first.token_type ≠ t.token_type →
      Runner.add (first :: pl :: rest1) =
        .fatal out "Mismatched types" "Cannot add on 2 values of different types") := by
  constructor
  · intro first second rest hns hmt
    simp only [Runner.add]
    rw [if_neg hns, add_finish, if_pos hmt]
  · intro first pl rest1 out t rest2 hp hrec hmt
    rw [add_cons_plus first pl rest1 out t rest2 hp hrec]
    rw [add_finish, if_pos hmt]

/-- C5, witness at the concrete operands Int "5" and String "x". -/
theorem c5_witness :
    Runner.add [⟨.Int, "5"⟩, ⟨.String, "x"⟩] =
      .fatal [] "Mismatched types" "Cannot add on 2 values of different types" :=
  c5_mismatched_types.1 ⟨.Int, "5"⟩ ⟨.String, "x"⟩ [] (by decide) (by decide)

/-- C6.  The numeric literal "1.2.3" hits the second decimal point while
one is already recorded: tokenization itself raises the fatal
IllegalCharError "Found an extra dot"; the whole line's run produces no
other output before it (the fatal outcome carries an empty output list),
the message is printed as "{name}: {description}", and the fatal outcome
models Error::throw's process exit (the whole session ends, not just the
line). -/
theorem c6_extra_dot :
    tokenizeGo 12 ⟨"1.2.3\n".toList, 0⟩ [] =
      some (.fatal "IllegalCharError" "Found an extra dot") ∧
    run_line 12 "1.2.3\n".toList =
      some (.fatal [] "IllegalCharError" "Found an extra dot") ∧
    fatal_print "IllegalCharError" "Found an extra dot" =
      "IllegalCharError: Found an extra dot" :=
  ⟨by decide, by decide, by decide⟩

/-- C7.  Evaluating a Keyword token whose text is anything other than
"puts" fails fatally with the Unknown keyword error, whose description
names exactly the offending keyword text; in particular the whole line
"frobnicate" ends in that fatal error. -/
theorem c7_unknown_keyword :
    (∀ (kw : String) (stack : List Token), kw ≠ "puts" →
      Runner.handle_keyword ⟨.Keyword, kw⟩ stack =
        .fatal [] "Unknown keyword error" ("No such keyword: " ++ kw)) ∧
    run_line 16 "frobnicate\n".toList =
      some (.fatal [] "Unknown keyword error" "No such keyword: frobnicate") := by
  constructor
  · intro kw stack h
    simp [Runner.handle_keyword, h]
  · decide

/-- C7, witness at the concrete keyword "frobnicate". -/
theorem c7_witness :
    Runner.handle_keyword ⟨.Keyword, "frobnicate"⟩ [] =
      .fatal [] "Unknown keyword error" "No such keyword: frobnicate" :=
  c7_unknown_keyword.1 "frobnicate" [] (by decide)

/-- C8.  For every input line of the form '"<body>" puts' (body of
ASCII, non-quote characters; trailing newline included), tokenization
yields the String token and the Keyword token "puts", and evaluation
pops the String token from the tail of the stack and prints its payload
verbatim on its own line. -/
theorem c8_puts_prints (s : List Char) (fuel : Nat)
    (hs : ∀ x ∈ s, is_ascii x = true ∧ x ≠ '"')
    (hf : s.length + 12 ≤ fuel) :
    tokenizeGo fuel
      ⟨'"' :: (s ++ ('"' :: ' ' :: 'p' :: 'u' :: 't' :: 's' :: ['\n'])), 0⟩ [] =
      some (.ok [⟨.String, String.mk s⟩,
        ⟨.Keyword, String.mk ['p', 'u', 't', 's']⟩]) ∧
    run_line fuel ('"' :: (s ++ ('"' :: ' ' :: 'p' :: 'u' :: 't' :: 's' :: ['\n']))) =
      some (.ok [String.mk s] ()) := by
  have ht := tokenize_string_puts s fuel hs hf
  refine ⟨ht, ?_⟩
  rw [run_line_eq fuel _ (by simp) _ ht]
  exact startGo_string_puts (String.mk s) (String.mk ['p', 'u', 't', 's']) fuel
    (by decide) (by omega)

/-- C8, witness at the concrete line '"hello" puts'. -/
theorem c8_witness :
    tokenizeGo 20
      ⟨'"' :: (['h', 'e', 'l', 'l', 'o'] ++
        ('"' :: ' ' :: 'p' :: 'u' :: 't' :: 's' :: ['\n'])), 0⟩ [] =
      some (.ok [⟨.String, String.mk ['h', 'e', 'l', 'l', 'o']⟩,
        ⟨.Keyword, String.mk ['p', 'u', 't', 's']⟩]) ∧
    run_line 20 ('"' :: (['h', 'e', 'l', 'l', 'o'] ++
        ('"' :: ' ' :: 'p' :: 'u' :: 't' :: 's' :: ['\n']))) =
      some (.ok [String.mk ['h', 'e', 'l', 'l', 'o']] ()) :=
  c8_puts_prints ['h', 'e', 'l', 'l', 'o'] 20 (by decide) (by decide)

/-- C9.  Tokenizing "3" yields exactly one Integer token with payload
"3" and tokenizing "3.0" yields exactly one Float token with payload
"3.0"; and in general a token returned by the number matcher is
Float-kind exactly when a decimal point was seen while matching it (a
dot sits in its accumulated payload), Integer-kind otherwise. -/
theorem c9_number_kinds :
    tokenizeGo 8 ⟨"3\n".toList, 0⟩ [] = some (.ok [⟨.Int, "3"⟩]) ∧
    tokenizeGo 8 ⟨"3.0\n".toList, 0⟩ [] = some (.ok [⟨.Float, "3.0"⟩]) ∧
    (∀ (fuel : Nat) (l : Lexer) (t : Token) (l2 : Lexer),
      is_numeric l.current_character = true →
      Lexer.match_number fuel l = some (.ok (t, l2)) →
      (t.token_type = .Float ↔ '.' ∈ t.token_value.data) ∧
      (t.token_type = .Int ↔ '.' ∉ t.token_value.data)) := by
  refine ⟨by decide, by decide, fun fuel l t l2 hn hm => ?_⟩
  refine matchNumberGo_dot_invariant fuel l false
    (String.mk [l.current_character]) t l2 ?_ hm
  constructor
  · intro hmem
    rw [data_mk] at hmem
    exact absurd (List.mem_singleton.mp hmem).symm (digit_ne_dot _ hn)
  · intro hfalse
    exact absurd hfalse (by decide)

/-- C9, witness: the general kind/dot equivalence applied at the
concrete literal "5.2". -/
theorem c9_witness :
    ((⟨.Float, "5.2"⟩ : Token).token_type = .Float ↔
      '.' ∈ ("5.2" : String).data) ∧
    ((⟨.Float, "5.2"⟩ : Token).token_type = .Int ↔
      '.' ∉ ("5.2" : String).data) :=
  c9_number_kinds.2.2 5 ⟨['5', '.', '2'], 0⟩ ⟨.Float, "5.2"⟩ ⟨['5', '.', '2'], 3⟩
    (by decide) (by decide)

/-- C10.  A line containing only a lone '+' among whitespace tokenizes
to the single Plus token with empty payload, and evaluating that
one-token stack reaches Runner::add's pop of an empty deque — the
unchecked panic outcome (which, in the program, aborts the entire
session) — with nothing printed. -/
theorem c10_lone_plus (w1 w2 : List Char) (fuel : Nat)
    (h1 : ∀ c ∈ w1, is_whitespace c = true)
    (h2 : ∀ c ∈ w2, is_whitespace c = true)
    (hf : w1.length + w2.length + 4 ≤ fuel) :
    tokenizeGo fuel ⟨w1 ++ ('+' :: w2), 0⟩ [] =
      some (.ok [⟨.Plus, String.mk []⟩]) ∧
    run_line fuel (w1 ++ ('+' :: w2)) = some (.panicked []) ∧
    Runner.add [] = .panicked [] := by
  have ht := tokenize_lone_plus w1 w2 fuel h1 h2 hf
  refine ⟨ht, ?_, by decide⟩
  rw [run_line_eq fuel _ (by simp) _ ht]
  exact startGo_lone_plus (String.mk []) fuel (by omega)

/-- C10, witness at the concrete line " + ". -/
theorem c10_witness :
    tokenizeGo 8 ⟨[' '] ++ ('+' :: [' ', '\n']), 0⟩ [] =
      some (.ok [⟨.Plus, String.mk []⟩]) ∧
    run_line 8 ([' '] ++ ('+' :: [' ', '\n'])) = some (.panicked []) ∧
    Runner.add [] = .panicked [] :=
  c10_lone_plus [' '] [' ', '\n'] 8 (by decide) (by decide) (by decide)
